import Mathlib

/-!
# Course-Planner: `get_ratings.js`

A shallow embedding of the browser script `src/get_ratings.js` and the
properties of it that the specification states.

The script runs inside a rendered page.  Everything it learns about the page
comes through four DOM queries (`querySelectorAll('table tbody tr')`,
`row.querySelectorAll('td')`, `cell.querySelector('span.text-base')`,
`document.querySelector('nav[aria-label="Pagination"] button:last-child')`),
the `innerText` of elements, and the `disabled` attribute / property of the
advance button.  The embedding therefore consists of

* JavaScript strings with `String.prototype.trim` and the `Number(string)`
  coercion (ECMAScript `StringToNumber`),
* an element tree with the part of the selector language the script uses,
* the functions `scrapeTableData`, `getNextButton`, `isNextDisabled`,
* the main loop as a step function over the sequence of documents the script
  observes, one per iteration.
-/

namespace CoursePlanner

/-! ## JavaScript strings

Strings are sequences of code points; the characters the script's operations
distinguish (white space, digits, signs, letters of literals) are all single
UTF-16 code units, so the two views agree on them. -/

/-- ECMAScript `WhiteSpace` and `LineTerminator` code points: the characters
removed by `String.prototype.trim` and skipped as `StrWhiteSpaceChar` by
`Number`. -/
def isWhiteSpaceChar (c : Char) : Bool :=
  let n := c.toNat
  n == 0x09 || n == 0x0A || n == 0x0B || n == 0x0C || n == 0x0D || n == 0x20 ||
  n == 0xA0 || n == 0x1680 || (0x2000 ≤ n && n ≤ 0x200A) || n == 0x2028 ||
  n == 0x2029 || n == 0x202F || n == 0x205F || n == 0x3000 || n == 0xFEFF

/-- Remove leading white space. -/
def trimStart (l : List Char) : List Char := l.dropWhile isWhiteSpaceChar

/-- Remove trailing white space. -/
def trimEnd (l : List Char) : List Char :=
  (l.reverse.dropWhile isWhiteSpaceChar).reverse

/-- On code points, `String.prototype.trim`. -/
def trimChars (l : List Char) : List Char := trimEnd (trimStart l)

/-- The method `String.prototype.trim`. -/
def jsTrim (s : String) : String := ⟨trimChars s.data⟩

/-! ## JavaScript numbers and `Number(string)` -/

/-- A JavaScript number value as produced by `Number(string)`.
`finite neg m e` stands for `(-1)^neg * m * 10^e`, the mathematical value of
the literal that was read (for a non-decimal literal `e = 0`).  The final
rounding of that value to a binary64 is not represented: a literal keeps its
exact value, also where a binary64 would round it or overflow to infinity.
Whether the result is not-a-number does not depend on the rounding. -/
inductive JSNumber where
  | nan
  | infinity (negative : Bool)
  | finite (negative : Bool) (mantissa : Nat) (exp10 : Int)
  deriving DecidableEq, Repr

namespace JSNumber

/-- The number `+0`. -/
def zero : JSNumber := finite false 0 0

/-- A non-negative integer literal of the script, such as `5`. -/
def ofNat (n : Nat) : JSNumber := finite false n 0

/-- Whether the value is not-a-number. -/
def isNaN : JSNumber → Bool
  | nan => true
  | _ => false

/-- Whether the value is a mathematical integer (`Number.isInteger`): neither
not-a-number nor infinite, and with no fractional part. -/
def isInteger : JSNumber → Bool
  | nan => false
  | infinity _ => false
  | finite _ m e =>
    match e with
    | Int.ofNat _ => true
    | Int.negSucc k => m % 10 ^ (k + 1) == 0

end JSNumber

/-- Whether `c` is one of `0-9`. -/
def isDecimalDigit (c : Char) : Bool := 48 ≤ c.toNat && c.toNat ≤ 57

/-- Value of a decimal digit. -/
def digitValue (c : Char) : Nat := c.toNat - 48

/-- Value of a hexadecimal digit. -/
def hexDigitValue (c : Char) : Nat :=
  if isDecimalDigit c then c.toNat - 48
  else if 97 ≤ c.toNat then c.toNat - 87
  else c.toNat - 55

/-- Whether `c` is one of `0-9a-fA-F`. -/
def isHexDigit (c : Char) : Bool :=
  isDecimalDigit c || (97 ≤ c.toNat && c.toNat ≤ 102) || (65 ≤ c.toNat && c.toNat ≤ 70)

/-- Whether `c` is `0` or `1`. -/
def isBinaryDigit (c : Char) : Bool := 48 ≤ c.toNat && c.toNat ≤ 49

/-- Whether `c` is one of `0-7`. -/
def isOctalDigit (c : Char) : Bool := 48 ≤ c.toNat && c.toNat ≤ 55

/-- Mathematical value of a digit string in the given base. -/
def digitsValue (base : Nat) (value : Char → Nat) (ds : List Char) : Nat :=
  ds.foldl (fun n c => base * n + value c) 0

/-- A non-empty run of decimal digits (`DecimalDigits`). -/
def isDecimalDigits (ds : List Char) : Bool := !ds.isEmpty && ds.all isDecimalDigit

/-- Reads a `SignedInteger`: decimal digits with an optional sign. -/
def parseSignedInteger : List Char → Option Int
  | [] => none
  | c :: ds =>
    if c = '+' then
      if isDecimalDigits ds then some (digitsValue 10 digitValue ds) else none
    else if c = '-' then
      if isDecimalDigits ds then some (-(digitsValue 10 digitValue ds : Int)) else none
    else if isDecimalDigits (c :: ds) then some (digitsValue 10 digitValue (c :: ds))
    else none

/-- Reads an optional `ExponentPart` that must extend to the end of the
text: nothing, or `e` / `E` followed by a `SignedInteger`. -/
def parseExponentOpt : List Char → Option Int
  | [] => some 0
  | c :: s => if c = 'e' ∨ c = 'E' then parseSignedInteger s else none

/-- Reads a `StrUnsignedDecimalLiteral` other than `Infinity`; the result is
the pair of mantissa and decimal exponent. -/
def parseUnsignedDecimal (l : List Char) : Option (Nat × Int) :=
  let intPart := l.takeWhile isDecimalDigit
  match l.dropWhile isDecimalDigit with
  | [] => if intPart.isEmpty then none else some (digitsValue 10 digitValue intPart, 0)
  | c :: rest =>
    if c = '.' then
      let frac := rest.takeWhile isDecimalDigit
      if intPart.isEmpty && frac.isEmpty then none
      else
        (parseExponentOpt (rest.dropWhile isDecimalDigit)).map fun e =>
          (digitsValue 10 digitValue (intPart ++ frac), e - (frac.length : Int))
    else if intPart.isEmpty then none
    else (parseExponentOpt (c :: rest)).map fun e => (digitsValue 10 digitValue intPart, e)

/-- Reads a `StrUnsignedDecimalLiteral` with the given sign. -/
def parseUnsignedDecimalLiteral (negative : Bool) (l : List Char) : JSNumber :=
  if l = "Infinity".data then JSNumber.infinity negative
  else
    match parseUnsignedDecimal l with
    | some (m, e) => JSNumber.finite negative m e
    | none => JSNumber.nan

/-- Reads a `StrDecimalLiteral`: an optional sign and an unsigned literal. -/
def parseStrDecimalLiteral : List Char → JSNumber
  | [] => JSNumber.nan
  | c :: l =>
    if c = '+' then parseUnsignedDecimalLiteral false l
    else if c = '-' then parseUnsignedDecimalLiteral true l
    else parseUnsignedDecimalLiteral false (c :: l)

/-- Reads a `NonDecimalIntegerLiteral`: `0b`, `0o` or `0x` (either case)
followed by at least one digit of that base, and nothing else. -/
def parseNonDecimalIntegerLiteral : List Char → Option Nat
  | z :: p :: ds =>
    if z = '0' ∧ !ds.isEmpty then
      if (p = 'b' ∨ p = 'B') ∧ ds.all isBinaryDigit then some (digitsValue 2 digitValue ds)
      else if (p = 'o' ∨ p = 'O') ∧ ds.all isOctalDigit then some (digitsValue 8 digitValue ds)
      else if (p = 'x' ∨ p = 'X') ∧ ds.all isHexDigit then some (digitsValue 16 hexDigitValue ds)
      else none
    else none
  | _ => none

/-- On code points, `StringToNumber`: white space is stripped on both sides;
the empty text is `+0`; a `StrNumericLiteral` gives its value; anything else
gives not-a-number. -/
def stringToNumber (l : List Char) : JSNumber :=
  match trimChars l with
  | [] => JSNumber.zero
  | c :: t =>
    match parseNonDecimalIntegerLiteral (c :: t) with
    | some n => JSNumber.finite false n 0
    | none => parseStrDecimalLiteral (c :: t)

/-- The call `Number(s)` on a string argument. -/
def Number (s : String) : JSNumber := stringToNumber s.data

/-! ## The rendered document -/

/-- An HTML element of the rendered page: its local name (lower case, as for
every HTML element), its attributes, the value of its `disabled` property
(false where the element has none), its `innerText` as the browser computes
it, and its element children in document order. -/
inductive Element where
  | mk (localName : String) (attributes : List (String × String)) (disabled : Bool)
      (innerText : String) (children : List Element)

namespace Element

/-- Local name of the element. -/
def localName : Element → String
  | mk n _ _ _ _ => n

/-- Attribute list of the element. -/
def attributes : Element → List (String × String)
  | mk _ a _ _ _ => a

/-- The property `disabled`. -/
def disabled : Element → Bool
  | mk _ _ d _ _ => d

/-- The property `innerText`. -/
def innerText : Element → String
  | mk _ _ _ t _ => t

/-- Element children. -/
def children : Element → List Element
  | mk _ _ _ _ c => c

/-- The method `hasAttribute(name)`. -/
def hasAttribute (e : Element) (name : String) : Bool :=
  e.attributes.any fun a => a.1 == name

/-- The method `getAttribute(name)`. -/
def getAttribute (e : Element) (name : String) : Option String :=
  e.attributes.lookup name

end Element

/-- Splits a `class` attribute value into its tokens (separated by ASCII
white space); `cur` is the token being read, reversed. -/
def classTokens (cur : List Char) : List Char → List String
  | [] => if cur.isEmpty then [] else [String.mk cur.reverse]
  | c :: cs =>
    if c = ' ' ∨ c = '\t' ∨ c = '\n' ∨ c = '\x0c' ∨ c = '\r' then
      if cur.isEmpty then classTokens [] cs else String.mk cur.reverse :: classTokens [] cs
    else classTokens (c :: cur) cs

/-- The class list of an element. -/
def Element.classList (e : Element) : List String :=
  match e.getAttribute "class" with
  | some v => classTokens [] v.data
  | none => []

/-- An element together with its position in the document: whether it is the
last element child of its parent, and its ancestors, nearest first, each with
its own last-child flag. -/
structure Located where
  elem : Element
  lastChild : Bool
  ancestors : List (Element × Bool)

mutual
/-- The element `e` and all its descendants in document order, each with its
position; `anc` are the ancestors of `e` and `last` says whether `e` is a last
child. -/
def locate (anc : List (Element × Bool)) (last : Bool) : Element → List Located
  | Element.mk n a d t cs =>
    ⟨Element.mk n a d t cs, last, anc⟩ :: locateChildren ((Element.mk n a d t cs, last) :: anc) cs
/-- The elements of a child list and all their descendants in document
order. -/
def locateChildren (anc : List (Element × Bool)) : List Element → List Located
  | [] => []
  | c :: cs => locate anc cs.isEmpty c ++ locateChildren anc cs
end

/-- A compound selector: a type selector, class selectors, attribute-equality
selectors and optionally `:last-child`. -/
structure Compound where
  type : String
  classes : List String
  attrs : List (String × String)
  lastChild : Bool

/-- Whether an element at a given position satisfies a compound selector. -/
def Compound.holds (c : Compound) (e : Element) (last : Bool) : Bool :=
  e.localName == c.type &&
  c.classes.all (fun k => e.classList.contains k) &&
  c.attrs.all (fun a => e.getAttribute a.1 == some a.2) &&
  (!c.lastChild || last)

/-- Whether a chain of compound selectors joined by descendant combinators,
given nearest first, is satisfied by some ancestors in that nesting order. -/
def ancestorsHold : List Compound → List (Element × Bool) → Bool
  | [], _ => true
  | _ :: _, [] => false
  | c :: cs, a :: as =>
    (c.holds a.1 a.2 && ancestorsHold cs as) || ancestorsHold (c :: cs) as

/-- A complex selector: compound selectors joined by descendant combinators,
in source order (the subject is the last one). -/
abbrev Selector := List Compound

/-- Whether a located element is selected. -/
def Selector.selects (sel : Selector) (l : Located) : Bool :=
  match sel.reverse with
  | [] => false
  | subject :: context => subject.holds l.elem l.lastChild && ancestorsHold context l.ancestors

/-- The document: its root element. -/
abbrev Document := Element

/-- The call `document.querySelectorAll(sel)`. -/
def Document.querySelectorAll (doc : Document) (sel : Selector) : List Located :=
  (locate [] true doc).filter sel.selects

/-- The call `document.querySelector(sel)`. -/
def Document.querySelector (doc : Document) (sel : Selector) : Option Located :=
  (doc.querySelectorAll sel).head?

/-- The call `element.querySelectorAll(sel)`: the descendants of the element
that are selected. -/
def Located.querySelectorAll (l : Located) (sel : Selector) : List Located :=
  (locateChildren ((l.elem, l.lastChild) :: l.ancestors) l.elem.children).filter sel.selects

/-- The call `element.querySelector(sel)`. -/
def Located.querySelector (l : Located) (sel : Selector) : Option Located :=
  (l.querySelectorAll sel).head?

/-- The selector `table tbody tr`. -/
def selTableRows : Selector :=
  [⟨"table", [], [], false⟩, ⟨"tbody", [], [], false⟩, ⟨"tr", [], [], false⟩]

/-- The selector `td`. -/
def selCells : Selector := [⟨"td", [], [], false⟩]

/-- The selector `span.text-base`. -/
def selCourseName : Selector := [⟨"span", ["text-base"], [], false⟩]

/-- The selector `nav[aria-label="Pagination"] button:last-child`. -/
def selNextButton : Selector :=
  [⟨"nav", [], [("aria-label", "Pagination")], false⟩, ⟨"button", [], [], true⟩]

/-! ## The script -/

/-- A run-time fault of the script. -/
inductive JSError where
  | typeError
  deriving DecidableEq, Repr

/-- One scraped course. -/
structure CourseRecord where
  courseName : String
  codes : String
  rating : JSNumber
  difficulty : JSNumber
  workload : JSNumber
  numReviews : JSNumber
  interest : JSNumber
  deriving DecidableEq, Repr

/-- Indexing `cells[i]` followed by a property access: a `TypeError` when the
index is out of range (the value is then `undefined`). -/
def item (cells : List Located) (i : Nat) : Except JSError Located :=
  match cells[i]? with
  | some c => Except.ok c
  | none => Except.error JSError.typeError

/-- The expression `x?.innerText.trim() || ''` for an optional element `x`:
a missing element and an empty trimmed text both give the empty string. -/
def trimmedTextOrEmpty (x : Option Located) : String :=
  match x.map (fun s => jsTrim s.elem.innerText) with
  | some t => if t = "" then "" else t
  | none => ""

/-- The callback of `rows.forEach` in `scrapeTableData`, with `pageData`
passed explicitly. -/
def scrapeRow (pageData : List CourseRecord) (row : Located) :
    Except JSError (List CourseRecord) :=
  let cells := row.querySelectorAll selCells
  if cells.length ≥ 6 then do
    let c0 ← item cells 0
    let courseName := trimmedTextOrEmpty (c0.querySelector selCourseName)
    let c1 ← item cells 1
    let codes := jsTrim c1.elem.innerText
    let c2 ← item cells 2
    let rating := Number (jsTrim c2.elem.innerText)
    let c3 ← item cells 3
    let difficulty := Number (jsTrim c3.elem.innerText)
    let c4 ← item cells 4
    let workload := Number (jsTrim c4.elem.innerText)
    let c5 ← item cells 5
    let numReviews := Number (jsTrim c5.elem.innerText)
    let interest := JSNumber.ofNat 5
    pure (pageData ++ [⟨courseName, codes, rating, difficulty, workload, numReviews, interest⟩])
  else pure pageData

/-- The function `scrapeTableData`. -/
def scrapeTableData (doc : Document) : Except JSError (List CourseRecord) :=
  let rows := doc.querySelectorAll selTableRows
  rows.foldlM scrapeRow []

/-- The function `getNextButton`. -/
def getNextButton (doc : Document) : Option Located :=
  doc.querySelector selNextButton

/-- The function `isNextDisabled`: `!btn || btn.hasAttribute('disabled') ||
btn.disabled`. -/
def isNextDisabled (btn : Option Located) : Bool :=
  match btn with
  | none => true
  | some b => b.elem.hasAttribute "disabled" || b.elem.disabled

/-- Where the main script stands. -/
inductive Status where
  | running
  | exited
  | faulted
  deriving DecidableEq, Repr

/-- State of the main script: the accumulator `allCourses`, the number of
calls of `scrapeTableData` and of `nextBtn.click()` made so far, the number of
the iteration (the documents the script observes are numbered from 0, one per
iteration), and whether the loop is still running. -/
structure LoopState where
  allCourses : List CourseRecord
  extractions : Nat
  clicks : Nat
  iter : Nat
  status : Status
  deriving DecidableEq, Repr

/-- State before the first iteration: `const allCourses = []`. -/
def LoopState.init : LoopState := ⟨[], 0, 0, 0, Status.running⟩

/-- One iteration of `while (true)`.  `pages i` is the document as it stands
during iteration `i` (the body runs without interruption up to
`await sleep(200)`, so one iteration sees one document). -/
def iteration (pages : Nat → Document) (s : LoopState) : LoopState :=
  match s.status with
  | Status.running =>
    match scrapeTableData (pages s.iter) with
    | Except.error _ => { s with status := Status.faulted }
    | Except.ok thisPageData =>
      let allCourses := s.allCourses ++ thisPageData
      let nextBtn := getNextButton (pages s.iter)
      if isNextDisabled nextBtn then
        ⟨allCourses, s.extractions + 1, s.clicks, s.iter, Status.exited⟩
      else
        match nextBtn with
        | none => ⟨allCourses, s.extractions + 1, s.clicks, s.iter, Status.faulted⟩
        | some _ => ⟨allCourses, s.extractions + 1, s.clicks + 1, s.iter + 1, Status.running⟩
  | _ => s

/-- State after `n` iterations. -/
def iterations (pages : Nat → Document) : Nat → LoopState
  | 0 => LoopState.init
  | n + 1 => iteration pages (iterations pages n)

/-- The main loop run from state `s` with a bound on the number of
iterations: the state in which it left the loop, or `none` when the bound is
reached with the loop still running. -/
def mainLoop (pages : Nat → Document) : Nat → LoopState → Option LoopState
  | 0, _ => none
  | fuel + 1, s =>
    let s1 := iteration pages s
    if s1.status = Status.running then mainLoop pages fuel s1 else some s1

/-- The whole script: the value printed by `console.log`, when the loop is
left by `break` within the bound. -/
def script (pages : Nat → Document) (fuel : Nat) : Option (List CourseRecord) :=
  match mainLoop pages fuel LoopState.init with
  | some s => if s.status = Status.exited then some s.allCourses else none
  | none => none

/-! ## Vocabulary of the specification -/

/-- The rows of the page's table, in document order. -/
def tableRows (doc : Document) : List Located := doc.querySelectorAll selTableRows

/-- The cells of a row, in document order. -/
def rowCells (row : Located) : List Located := row.querySelectorAll selCells

/-- A qualifying row: one with at least 6 cells. -/
def hasSixCells (row : Located) : Bool := decide (6 ≤ (rowCells row).length)

/-- The qualifying rows of a page, in document order. -/
def qualifyingRows (doc : Document) : List Located := (tableRows doc).filter hasSixCells

/-- The `innerText` of cell number `i` of a list of cells, counted from 0
(the empty string when there is no such cell). -/
def cellText (cells : List Located) (i : Nat) : String :=
  match cells[i]? with
  | some c => c.elem.innerText
  | none => ""

/-- The course name read from the first cell of a list of cells: the trimmed
text of its first `span.text-base` descendant, the empty string without one. -/
def courseNameOf (cells : List Located) : String :=
  match cells[0]? with
  | some c =>
    match c.querySelector selCourseName with
    | some span => jsTrim span.elem.innerText
    | none => ""
  | none => ""

/-- The record built from a row: name from the first cell, codes from the
second, then the four numeric cells coerced with `Number`, and `interest`
equal to 5. -/
def recordOfRow (row : Located) : CourseRecord :=
  let cells := rowCells row
  ⟨courseNameOf cells, jsTrim (cellText cells 1),
    Number (jsTrim (cellText cells 2)), Number (jsTrim (cellText cells 3)),
    Number (jsTrim (cellText cells 4)), Number (jsTrim (cellText cells 5)),
    JSNumber.ofNat 5⟩

/-- The list a call of `scrapeTableData` returns (empty if the call
faults). -/
def scrapedRecords (doc : Document) : List CourseRecord :=
  match scrapeTableData doc with
  | Except.ok pageData => pageData
  | Except.error _ => []

/-- The advance control of a page is missing or disabled. -/
def advanceDisabled (doc : Document) : Bool := isNextDisabled (getNextButton doc)

/-- The concatenation `scrapeTableData(page 0) ++ ... ++ scrapeTableData(page n-1)`
of the lists returned for the first `n` pages, in page order. -/
def pagesRecords (pages : Nat → Document) (n : Nat) : List CourseRecord :=
  ((List.range n).map fun i => scrapedRecords (pages i)).flatten

/-- A labelled pagination region: an element `nav[aria-label="Pagination"]`. -/
def isPaginationRegion (e : Element) : Bool :=
  e.localName == "nav" && e.getAttribute "aria-label" == some "Pagination"

/-- All elements of the document in document order, each with its position. -/
def Document.elements (doc : Document) : List Located := locate [] true doc

/-- A trailing button of a pagination region: a `button` that is the last
child of its parent and lies inside a pagination region. -/
def isTrailingButton (l : Located) : Bool :=
  l.elem.localName == "button" && l.lastChild &&
    l.ancestors.any fun a => isPaginationRegion a.1

/-! ### The grammar of numeric texts

The ECMAScript grammar `StringNumericLiteral`, the texts that `Number` reads
as a number; every other text is non-numeric. -/

/-- `StrWhiteSpace`: a run of white space characters. -/
def IsStrWhiteSpace (w : List Char) : Prop := ∀ c ∈ w, isWhiteSpaceChar c = true

/-- `DecimalDigits`: a non-empty run of decimal digits. -/
def IsDecimalDigits (ds : List Char) : Prop := ds ≠ [] ∧ ∀ c ∈ ds, isDecimalDigit c = true

/-- `SignedInteger`: decimal digits, optionally after `+` or `-`. -/
inductive IsSignedInteger : List Char → Prop
  | unsigned {ds : List Char} : IsDecimalDigits ds → IsSignedInteger ds
  | plus {ds : List Char} : IsDecimalDigits ds → IsSignedInteger ('+' :: ds)
  | minus {ds : List Char} : IsDecimalDigits ds → IsSignedInteger ('-' :: ds)

/-- An optional `ExponentPart`: nothing, or `e` or `E` and a signed integer. -/
inductive IsExponentPartOpt : List Char → Prop
  | absent : IsExponentPartOpt []
  | lower {s : List Char} : IsSignedInteger s → IsExponentPartOpt ('e' :: s)
  | upper {s : List Char} : IsSignedInteger s → IsExponentPartOpt ('E' :: s)

/-- `StrUnsignedDecimalLiteral`: `Infinity`, or digits with an optional
fraction and exponent, or a fraction without integer part. -/
inductive IsStrUnsignedDecimalLiteral : List Char → Prop
  | infinity : IsStrUnsignedDecimalLiteral "Infinity".data
  | intDot {i f e : List Char} : IsDecimalDigits i → (∀ c ∈ f, isDecimalDigit c = true) →
      IsExponentPartOpt e → IsStrUnsignedDecimalLiteral (i ++ '.' :: (f ++ e))
  | dotFrac {f e : List Char} : IsDecimalDigits f → IsExponentPartOpt e →
      IsStrUnsignedDecimalLiteral ('.' :: (f ++ e))
  | int {i e : List Char} : IsDecimalDigits i → IsExponentPartOpt e →
      IsStrUnsignedDecimalLiteral (i ++ e)

/-- `StrDecimalLiteral`: an unsigned decimal literal, optionally after `+` or
`-`. -/
inductive IsStrDecimalLiteral : List Char → Prop
  | unsigned {l : List Char} : IsStrUnsignedDecimalLiteral l → IsStrDecimalLiteral l
  | plus {l : List Char} : IsStrUnsignedDecimalLiteral l → IsStrDecimalLiteral ('+' :: l)
  | minus {l : List Char} : IsStrUnsignedDecimalLiteral l → IsStrDecimalLiteral ('-' :: l)

/-- `NonDecimalIntegerLiteral`: `0b`, `0o` or `0x` in either case and at least
one digit of that base. -/
inductive IsNonDecimalIntegerLiteral : List Char → Prop
  | binary {p : Char} {ds : List Char} : p = 'b' ∨ p = 'B' → ds ≠ [] →
      (∀ c ∈ ds, isBinaryDigit c = true) → IsNonDecimalIntegerLiteral ('0' :: p :: ds)
  | octal {p : Char} {ds : List Char} : p = 'o' ∨ p = 'O' → ds ≠ [] →
      (∀ c ∈ ds, isOctalDigit c = true) → IsNonDecimalIntegerLiteral ('0' :: p :: ds)
  | hex {p : Char} {ds : List Char} : p = 'x' ∨ p = 'X' → ds ≠ [] →
      (∀ c ∈ ds, isHexDigit c = true) → IsNonDecimalIntegerLiteral ('0' :: p :: ds)

/-- `StrNumericLiteral`: a decimal or a non-decimal literal. -/
def IsStrNumericLiteral (l : List Char) : Prop :=
  IsStrDecimalLiteral l ∨ IsNonDecimalIntegerLiteral l

/-- `StringNumericLiteral`: optional white space, optionally a numeric
literal, optional white space. -/
def IsStringNumericLiteral (l : List Char) : Prop :=
  ∃ w1 lit w2, l = w1 ++ lit ++ w2 ∧ IsStrWhiteSpace w1 ∧ IsStrWhiteSpace w2 ∧
    (lit = [] ∨ IsStrNumericLiteral lit)

/-- A numeric text: one that `Number` can read as a number. -/
def IsNumericText (s : String) : Prop := IsStringNumericLiteral s.data

/-! ## Example pages -/

/-- A table cell with the given text. -/
def exCell (text : String) : Element := Element.mk "td" [] false text []

/-- A first cell as the page renders it: the course name in a
`span.text-base`. -/
def exNameCell (name : String) : Element :=
  Element.mk "td" [] false name
    [Element.mk "div" [("class", "flex")] false name
      [Element.mk "span" [("class", "text-base font-medium")] false name []]]

/-- A table row with the given cells. -/
def exRow (cells : List Element) : Element := Element.mk "tr" [] false "" cells

/-- The pagination region with a "Previous" button and a trailing "Next"
button, the latter disabled or not. -/
def exNav (nextDisabled : Bool) : Element :=
  Element.mk "nav" [("aria-label", "Pagination")] false "PreviousNext"
    [Element.mk "button" [] false "Previous" [],
      Element.mk "button" (if nextDisabled then [("disabled", "")] else []) nextDisabled
        "Next" []]

/-- A page: a table with a header row and the given body rows, followed by the
given elements. -/
def exPage (rows : List Element) (after : List Element) : Document :=
  Element.mk "html" [] false ""
    [Element.mk "body" [] false ""
      (Element.mk "table" [] false ""
        [Element.mk "thead" [] false "" [exRow [Element.mk "th" [] false "Course" []]],
          Element.mk "tbody" [] false "" rows] :: after)]

/-- First page: a full row, then a row with two cells; "Next" is enabled. -/
def pageOne : Document :=
  exPage
    [exRow [exNameCell " Algorithms ", exCell "CS 161", exCell "4.5", exCell "3.2",
        exCell " 10 ", exCell "120"],
      exRow [exCell "No more results", exCell ""]]
    [exNav false]

/-- Last page: a row of seven cells without a name span, with a non-numeric
rating, an empty difficulty, a blank workload and reviews "N/A"; "Next" is
disabled. -/
def pageTwo : Document :=
  exPage
    [exRow [exCell "Databases", exCell "CS 145", exCell "4.1 stars", exCell "", exCell "  ",
        exCell "N/A", exCell "extra"]]
    [exNav true]

/-- A page with a fractional review count and no pagination region. -/
def pageThree : Document :=
  exPage
    [exRow [exNameCell "Compilers", exCell "CS 143", exCell "4", exCell "4", exCell "15",
        exCell "7.5"]]
    []

/-- The two-page sequence `pageOne`, `pageTwo`. -/
def examplePages (i : Nat) : Document := if i = 0 then pageOne else pageTwo

/-- An unchanging page with an always-enabled control. -/
def stuckPages (_ : Nat) : Document := pageOne

/-- The only table row of `pageTwo`. -/
def pageTwoRow : Located := (tableRows pageTwo).headD ⟨pageTwo, true, []⟩

/-- The first table row of `pageOne`. -/
def pageOneRow : Located := (tableRows pageOne).headD ⟨pageOne, true, []⟩

/-- The only table row of `pageThree`. -/
def pageThreeRow : Located := (tableRows pageThree).headD ⟨pageThree, true, []⟩

/-- A visible ASCII character (code 33 to 126). -/
def Visible (c : Char) : Prop := 33 ≤ c.toNat ∧ c.toNat ≤ 126

/-! ## `Number` and the grammar of numeric texts -/

theorem isDecimalDigits_iff (ds : List Char) :
    isDecimalDigits ds = true ↔ IsDecimalDigits ds := by
  cases ds with
  | nil => simp [isDecimalDigits, IsDecimalDigits]
  | cons c cs => simp [isDecimalDigits, IsDecimalDigits]

theorem parseSignedInteger_isSome_iff (l : List Char) :
    (parseSignedInteger l).isSome = true ↔ IsSignedInteger l := by
  constructor
  · intro h
    cases l with
    | nil => simp [parseSignedInteger] at h
    | cons c ds =>
      simp only [parseSignedInteger] at h
      split at h
      · next hc =>
        subst hc
        split at h
        · next hd => exact IsSignedInteger.plus ((isDecimalDigits_iff _).1 hd)
        · simp at h
      · split at h
        · next hc =>
          subst hc
          split at h
          · next hd => exact IsSignedInteger.minus ((isDecimalDigits_iff _).1 hd)
          · simp at h
        · split at h
          · next hd => exact IsSignedInteger.unsigned ((isDecimalDigits_iff _).1 hd)
          · simp at h
  · intro h
    cases h with
    | unsigned hd =>
      obtain ⟨hne, hall⟩ := hd
      cases l with
      | nil => exact absurd rfl hne
      | cons c cs =>
        have hc : isDecimalDigit c = true := hall c (List.mem_cons_self _ _)
        have h1 : c ≠ '+' := by rintro rfl; exact absurd hc (by decide)
        have h2 : c ≠ '-' := by rintro rfl; exact absurd hc (by decide)
        have h3 : isDecimalDigits (c :: cs) = true := (isDecimalDigits_iff _).2 ⟨hne, hall⟩
        simp [parseSignedInteger, h1, h2, h3]
    | plus hd => simp [parseSignedInteger, (isDecimalDigits_iff _).2 hd]
    | minus hd =>
      have : ('-' : Char) ≠ '+' := by decide
      simp [parseSignedInteger, (isDecimalDigits_iff _).2 hd, this]

theorem parseExponentOpt_isSome_iff (l : List Char) :
    (parseExponentOpt l).isSome = true ↔ IsExponentPartOpt l := by
  constructor
  · intro h
    cases l with
    | nil => exact IsExponentPartOpt.absent
    | cons c s =>
      simp only [parseExponentOpt] at h
      split at h
      · next hc =>
        rcases hc with rfl | rfl
        · exact IsExponentPartOpt.lower ((parseSignedInteger_isSome_iff _).1 h)
        · exact IsExponentPartOpt.upper ((parseSignedInteger_isSome_iff _).1 h)
      · simp at h
  · intro h
    cases h with
    | absent => rfl
    | lower hs => simpa [parseExponentOpt] using (parseSignedInteger_isSome_iff _).2 hs
    | upper hs => simpa [parseExponentOpt] using (parseSignedInteger_isSome_iff _).2 hs

theorem takeWhile_digits_append (i d : List Char) (hi : ∀ c ∈ i, isDecimalDigit c = true)
    (hd : ∀ c ∈ d.head?, isDecimalDigit c = false) :
    (i ++ d).takeWhile isDecimalDigit = i ∧ (i ++ d).dropWhile isDecimalDigit = d := by
  rw [List.takeWhile_append_of_pos hi, List.dropWhile_append_of_pos hi]
  cases d with
  | nil => simp
  | cons c t =>
    have : isDecimalDigit c = false := hd c (by simp)
    simp [List.takeWhile_cons, List.dropWhile_cons, this]

theorem head_exponentPartOpt {e : List Char} (he : IsExponentPartOpt e) :
    ∀ c ∈ e.head?, isDecimalDigit c = false ∧ c ≠ '.' := by
  cases he with
  | absent => simp
  | lower _ => simp; decide
  | upper _ => simp; decide

theorem parseUnsignedDecimal_sound (l : List Char)
    (h : (parseUnsignedDecimal l).isSome = true) : IsStrUnsignedDecimalLiteral l := by
  have hl : l.takeWhile isDecimalDigit ++ l.dropWhile isDecimalDigit = l :=
    List.takeWhile_append_dropWhile _ _
  have hi : ∀ c ∈ l.takeWhile isDecimalDigit, isDecimalDigit c = true :=
    fun c hc => (List.mem_takeWhile_imp hc)
  unfold parseUnsignedDecimal at h
  simp only at h
  split at h
  · next hd =>
    split at h
    · simp at h
    · next hne =>
      rw [hd] at hl
      rw [← hl]
      exact IsStrUnsignedDecimalLiteral.int ⟨by simpa using hne, hi⟩ IsExponentPartOpt.absent
  · next c rest hd =>
    rw [hd] at hl
    have hr : rest.takeWhile isDecimalDigit ++ rest.dropWhile isDecimalDigit = rest :=
      List.takeWhile_append_dropWhile _ _
    have hf : ∀ c ∈ rest.takeWhile isDecimalDigit, isDecimalDigit c = true :=
      fun c hc => (List.mem_takeWhile_imp hc)
    split at h
    · next hc =>
      subst hc
      split at h
      · simp at h
      · next hne =>
        have he : IsExponentPartOpt (rest.dropWhile isDecimalDigit) := by
          apply (parseExponentOpt_isSome_iff _).1
          simpa using h
        by_cases hie : l.takeWhile isDecimalDigit = []
        · have hfe : rest.takeWhile isDecimalDigit ≠ [] := by
            intro hfe
            simp [hie, hfe] at hne
          rw [hie] at hl
          rw [← hl, ← hr]
          exact IsStrUnsignedDecimalLiteral.dotFrac ⟨hfe, hf⟩ he
        · rw [← hl, ← hr]
          exact IsStrUnsignedDecimalLiteral.intDot ⟨hie, hi⟩ hf he
    · split at h
      · simp at h
      · next hne =>
        have he : IsExponentPartOpt (c :: rest) := by
          apply (parseExponentOpt_isSome_iff _).1
          simpa using h
        rw [← hl]
        exact IsStrUnsignedDecimalLiteral.int ⟨by simpa using hne, hi⟩ he

theorem parseUnsignedDecimal_complete (l : List Char) (h : IsStrUnsignedDecimalLiteral l) :
    l = "Infinity".data ∨ (parseUnsignedDecimal l).isSome = true := by
  cases h with
  | infinity => exact Or.inl rfl
  | @intDot i f e hi hf he =>
    right
    have h1 := takeWhile_digits_append i ('.' :: (f ++ e)) hi.2 (by simp; decide)
    have h2 := takeWhile_digits_append f e hf (fun c hc => (head_exponentPartOpt he c hc).1)
    have hie : i.isEmpty = false := by
      cases i with
      | nil => exact absurd rfl hi.1
      | cons _ _ => rfl
    unfold parseUnsignedDecimal
    simp only [h1.1, h1.2, if_true, h2.1, h2.2, hie, Bool.false_and]
    simpa using (parseExponentOpt_isSome_iff _).2 he
  | @dotFrac f e hf he =>
    right
    have h1 := takeWhile_digits_append [] ('.' :: (f ++ e)) (by simp) (by simp; decide)
    have h2 := takeWhile_digits_append f e hf.2 (fun c hc => (head_exponentPartOpt he c hc).1)
    have hfe : f.isEmpty = false := by
      cases f with
      | nil => exact absurd rfl hf.1
      | cons _ _ => rfl
    simp only [List.nil_append] at h1
    unfold parseUnsignedDecimal
    simp only [h1.1, h1.2, if_true, h2.1, h2.2, hfe, Bool.and_false]
    simpa using (parseExponentOpt_isSome_iff _).2 he
  | @int i e hi he =>
    right
    have h1 := takeWhile_digits_append i e hi.2 (fun c hc => (head_exponentPartOpt he c hc).1)
    have hie : i.isEmpty = false := by
      cases i with
      | nil => exact absurd rfl hi.1
      | cons _ _ => rfl
    unfold parseUnsignedDecimal
    simp only [h1.1, h1.2]
    cases e with
    | nil => simp [hie]
    | cons c rest =>
      have hc : c ≠ '.' := (head_exponentPartOpt he c (by simp)).2
      simp only [hc, if_false, hie]
      simpa using (parseExponentOpt_isSome_iff _).2 he

theorem parseUnsignedDecimalLiteral_ne_nan_iff (negative : Bool) (l : List Char) :
    parseUnsignedDecimalLiteral negative l ≠ JSNumber.nan ↔ IsStrUnsignedDecimalLiteral l := by
  unfold parseUnsignedDecimalLiteral
  constructor
  · intro h
    split at h
    · next hl => rw [hl]; exact IsStrUnsignedDecimalLiteral.infinity
    · split at h
      · next m e hp => exact parseUnsignedDecimal_sound l (by rw [hp]; rfl)
      · exact absurd rfl h
  · intro h
    rcases parseUnsignedDecimal_complete l h with hl | hp
    · simp [hl]
    · split
      · simp
      · split
        · simp
        · next hn => rw [hn] at hp; simp at hp

theorem parseUnsignedDecimalLiteral_sign (c : Char) (t : List Char) (negative : Bool)
    (hc : c = '+' ∨ c = '-') : parseUnsignedDecimalLiteral negative (c :: t) = JSNumber.nan := by
  have h1 : isDecimalDigit c = false := by rcases hc with rfl | rfl <;> decide
  have h2 : c ≠ '.' := by rcases hc with rfl | rfl <;> decide
  have h3 : c :: t ≠ "Infinity".data := by
    intro h
    have : c = 'I' := by simpa using congrArg List.head? h
    rcases hc with rfl | rfl <;> exact absurd this (by decide)
  simp [parseUnsignedDecimalLiteral, h3, parseUnsignedDecimal, List.takeWhile_cons,
    List.dropWhile_cons, h1, h2]

theorem parseStrDecimalLiteral_ne_nan_iff (l : List Char) :
    parseStrDecimalLiteral l ≠ JSNumber.nan ↔ IsStrDecimalLiteral l := by
  constructor
  · intro h
    cases l with
    | nil => exact absurd rfl h
    | cons c t =>
      simp only [parseStrDecimalLiteral] at h
      split at h
      · next hc =>
        subst hc
        exact IsStrDecimalLiteral.plus ((parseUnsignedDecimalLiteral_ne_nan_iff _ _).1 h)
      · split at h
        · next hc =>
          subst hc
          exact IsStrDecimalLiteral.minus ((parseUnsignedDecimalLiteral_ne_nan_iff _ _).1 h)
        · exact IsStrDecimalLiteral.unsigned ((parseUnsignedDecimalLiteral_ne_nan_iff _ _).1 h)
  · intro h
    cases h with
    | unsigned hu =>
      have hne := (parseUnsignedDecimalLiteral_ne_nan_iff false l).2 hu
      cases l with
      | nil => exact absurd (by decide) hne
      | cons c t =>
        have h1 : c ≠ '+' := fun hc =>
          hne (parseUnsignedDecimalLiteral_sign c t false (Or.inl hc))
        have h2 : c ≠ '-' := fun hc =>
          hne (parseUnsignedDecimalLiteral_sign c t false (Or.inr hc))
        simpa [parseStrDecimalLiteral, h1, h2] using hne
    | plus hu =>
      simpa [parseStrDecimalLiteral] using (parseUnsignedDecimalLiteral_ne_nan_iff false _).2 hu
    | minus hu =>
      have : ('-' : Char) ≠ '+' := by decide
      simpa [parseStrDecimalLiteral, this] using
        (parseUnsignedDecimalLiteral_ne_nan_iff true _).2 hu

theorem parseNonDecimalIntegerLiteral_isSome_iff (l : List Char) :
    (parseNonDecimalIntegerLiteral l).isSome = true ↔ IsNonDecimalIntegerLiteral l := by
  constructor
  · intro h
    match l, h with
    | z :: p :: ds, h =>
      simp only [parseNonDecimalIntegerLiteral] at h
      split at h
      · next hz =>
        obtain ⟨rfl, hne⟩ := hz
        have hne' : ds ≠ [] := by
          intro hds
          simp [hds] at hne
        split at h
        · next hb =>
          exact IsNonDecimalIntegerLiteral.binary hb.1 hne' (by simpa using hb.2)
        · split at h
          · next ho =>
            exact IsNonDecimalIntegerLiteral.octal ho.1 hne' (by simpa using ho.2)
          · split at h
            · next hx =>
              exact IsNonDecimalIntegerLiteral.hex hx.1 hne' (by simpa using hx.2)
            · simp at h
      · simp at h
  · intro h
    cases h with
    | @binary p ds hp hne hall =>
      have : ds.isEmpty = false := by
        cases ds with
        | nil => exact absurd rfl hne
        | cons _ _ => rfl
      have hall' : ds.all isBinaryDigit = true := by simpa using hall
      simp [parseNonDecimalIntegerLiteral, this, hp, hall']
    | @octal p ds hp hne hall =>
      have : ds.isEmpty = false := by
        cases ds with
        | nil => exact absurd rfl hne
        | cons _ _ => rfl
      have hall' : ds.all isOctalDigit = true := by simpa using hall
      simp only [parseNonDecimalIntegerLiteral, this, hp, hall']
      repeat' split
      all_goals simp_all
    | @hex p ds hp hne hall =>
      have : ds.isEmpty = false := by
        cases ds with
        | nil => exact absurd rfl hne
        | cons _ _ => rfl
      have hall' : ds.all isHexDigit = true := by simpa using hall
      simp only [parseNonDecimalIntegerLiteral, this, hp, hall']
      repeat' split
      all_goals simp_all

theorem not_whiteSpace_of_visible {c : Char} (h : Visible c) : isWhiteSpaceChar c = false := by
  obtain ⟨h1, h2⟩ := h
  simp only [isWhiteSpaceChar, Bool.or_eq_false_iff, Bool.and_eq_false_iff, beq_eq_false_iff_ne,
    decide_eq_false_iff_not]
  refine ⟨⟨⟨⟨⟨⟨⟨⟨⟨⟨⟨⟨⟨⟨?_, ?_⟩, ?_⟩, ?_⟩, ?_⟩, ?_⟩, ?_⟩, ?_⟩, ?_⟩, ?_⟩, ?_⟩, ?_⟩, ?_⟩, ?_⟩, ?_⟩ <;>
    omega

theorem visible_of_decimalDigit {c : Char} (h : isDecimalDigit c = true) : Visible c := by
  simp only [isDecimalDigit, Bool.and_eq_true, decide_eq_true_eq] at h
  exact ⟨by omega, by omega⟩

theorem visible_of_binaryDigit {c : Char} (h : isBinaryDigit c = true) : Visible c := by
  simp only [isBinaryDigit, Bool.and_eq_true, decide_eq_true_eq] at h
  exact ⟨by omega, by omega⟩

theorem visible_of_octalDigit {c : Char} (h : isOctalDigit c = true) : Visible c := by
  simp only [isOctalDigit, Bool.and_eq_true, decide_eq_true_eq] at h
  exact ⟨by omega, by omega⟩

theorem visible_of_hexDigit {c : Char} (h : isHexDigit c = true) : Visible c := by
  simp only [isHexDigit, isDecimalDigit, Bool.or_eq_true, Bool.and_eq_true, decide_eq_true_eq] at h
  exact ⟨by omega, by omega⟩

theorem visible_signedInteger {l : List Char} (h : IsSignedInteger l) : ∀ c ∈ l, Visible c := by
  cases h with
  | unsigned hd => exact fun c hc => visible_of_decimalDigit (hd.2 c hc)
  | plus hd =>
    intro c hc
    rcases List.mem_cons.1 hc with rfl | hc
    · exact ⟨by decide, by decide⟩
    · exact visible_of_decimalDigit (hd.2 c hc)
  | minus hd =>
    intro c hc
    rcases List.mem_cons.1 hc with rfl | hc
    · exact ⟨by decide, by decide⟩
    · exact visible_of_decimalDigit (hd.2 c hc)

theorem visible_exponentPartOpt {l : List Char} (h : IsExponentPartOpt l) :
    ∀ c ∈ l, Visible c := by
  cases h with
  | absent => simp
  | lower hs =>
    intro c hc
    rcases List.mem_cons.1 hc with rfl | hc
    · exact ⟨by decide, by decide⟩
    · exact visible_signedInteger hs c hc
  | upper hs =>
    intro c hc
    rcases List.mem_cons.1 hc with rfl | hc
    · exact ⟨by decide, by decide⟩
    · exact visible_signedInteger hs c hc

theorem visible_unsignedDecimalLiteral {l : List Char} (h : IsStrUnsignedDecimalLiteral l) :
    ∀ c ∈ l, Visible c := by
  cases h with
  | infinity =>
    intro c hc
    simp only [List.mem_cons, List.mem_singleton, List.not_mem_nil, or_false] at hc
    rcases hc with rfl | rfl | rfl | rfl | rfl | rfl | rfl | rfl <;> exact ⟨by decide, by decide⟩
  | intDot hi hf he =>
    intro c hc
    simp only [List.mem_append, List.mem_cons] at hc
    rcases hc with hc | rfl | hc | hc
    · exact visible_of_decimalDigit (hi.2 c hc)
    · exact ⟨by decide, by decide⟩
    · exact visible_of_decimalDigit (hf c hc)
    · exact visible_exponentPartOpt he c hc
  | dotFrac hf he =>
    intro c hc
    simp only [List.mem_append, List.mem_cons] at hc
    rcases hc with rfl | hc | hc
    · exact ⟨by decide, by decide⟩
    · exact visible_of_decimalDigit (hf.2 c hc)
    · exact visible_exponentPartOpt he c hc
  | int hi he =>
    intro c hc
    simp only [List.mem_append] at hc
    rcases hc with hc | hc
    · exact visible_of_decimalDigit (hi.2 c hc)
    · exact visible_exponentPartOpt he c hc

theorem visible_strNumericLiteral {l : List Char} (h : IsStrNumericLiteral l) :
    ∀ c ∈ l, Visible c := by
  rcases h with h | h
  · cases h with
    | unsigned hu => exact visible_unsignedDecimalLiteral hu
    | plus hu =>
      intro c hc
      rcases List.mem_cons.1 hc with rfl | hc
      · exact ⟨by decide, by decide⟩
      · exact visible_unsignedDecimalLiteral hu c hc
    | minus hu =>
      intro c hc
      rcases List.mem_cons.1 hc with rfl | hc
      · exact ⟨by decide, by decide⟩
      · exact visible_unsignedDecimalLiteral hu c hc
  · have hp : ∀ p : Char, p ∈ ['b', 'B', 'o', 'O', 'x', 'X'] → Visible p := by
      intro p hp
      simp only [List.mem_cons, List.mem_singleton, List.not_mem_nil, or_false] at hp
      rcases hp with rfl | rfl | rfl | rfl | rfl | rfl <;> exact ⟨by decide, by decide⟩
    cases h with
    | binary hb _ hall =>
      intro c hc
      simp only [List.mem_cons] at hc
      rcases hc with rfl | rfl | hc
      · exact ⟨by decide, by decide⟩
      · exact hp _ (by rcases hb with rfl | rfl <;> simp)
      · exact visible_of_binaryDigit (hall c hc)
    | octal hb _ hall =>
      intro c hc
      simp only [List.mem_cons] at hc
      rcases hc with rfl | rfl | hc
      · exact ⟨by decide, by decide⟩
      · exact hp _ (by rcases hb with rfl | rfl <;> simp)
      · exact visible_of_octalDigit (hall c hc)
    | hex hb _ hall =>
      intro c hc
      simp only [List.mem_cons] at hc
      rcases hc with rfl | rfl | hc
      · exact ⟨by decide, by decide⟩
      · exact hp _ (by rcases hb with rfl | rfl <;> simp)
      · exact visible_of_hexDigit (hall c hc)

theorem dropWhile_eq_self {p : Char → Bool} {l : List Char} (h : ∀ c ∈ l.head?, p c = false) :
    l.dropWhile p = l := by
  cases l with
  | nil => rfl
  | cons c t => simp [List.dropWhile_cons, h c (by simp)]

theorem dropWhile_eq_nil {p : Char → Bool} {l : List Char} (h : ∀ c ∈ l, p c = true) :
    l.dropWhile p = [] := by
  simpa using @List.dropWhile_append_of_pos _ p l [] h

theorem trimChars_sandwich {w1 lit w2 : List Char} (h1 : IsStrWhiteSpace w1)
    (h2 : IsStrWhiteSpace w2) (hlit : ∀ c ∈ lit, isWhiteSpaceChar c = false) :
    trimChars (w1 ++ lit ++ w2) = lit := by
  unfold trimChars trimStart trimEnd
  rw [List.append_assoc, List.dropWhile_append_of_pos h1]
  cases lit with
  | nil =>
    rw [List.nil_append, dropWhile_eq_nil h2]
    rfl
  | cons c t =>
    have e1 : List.dropWhile isWhiteSpaceChar (c :: t ++ w2) = c :: t ++ w2 :=
      dropWhile_eq_self (by simpa using hlit c (List.mem_cons_self _ _))
    have e2 : List.dropWhile isWhiteSpaceChar (c :: t).reverse = (c :: t).reverse := by
      apply dropWhile_eq_self
      intro d hd
      apply hlit d
      exact List.mem_reverse.1 (List.mem_of_mem_head? hd)
    rw [e1, List.reverse_append, List.dropWhile_append_of_pos (by simpa using h2), e2,
      List.reverse_reverse]

theorem trimChars_decomp (l : List Char) :
    ∃ w1 w2, l = w1 ++ trimChars l ++ w2 ∧ IsStrWhiteSpace w1 ∧ IsStrWhiteSpace w2 := by
  refine ⟨l.takeWhile isWhiteSpaceChar,
    ((trimStart l).reverse.takeWhile isWhiteSpaceChar).reverse, ?_, ?_, ?_⟩
  · have h1 : l = l.takeWhile isWhiteSpaceChar ++ trimStart l :=
      (List.takeWhile_append_dropWhile _ _).symm
    have h2 : trimStart l = trimChars l ++
        ((trimStart l).reverse.takeWhile isWhiteSpaceChar).reverse := by
      unfold trimChars trimEnd
      rw [← List.reverse_append, List.takeWhile_append_dropWhile, List.reverse_reverse]
    rw [List.append_assoc, ← h2, ← h1]
  · exact fun c hc => List.mem_takeWhile_imp hc
  · intro c hc
    exact List.mem_takeWhile_imp (List.mem_reverse.1 hc)

/-- `Number` gives not-a-number exactly on the texts outside the grammar
`StringNumericLiteral`. -/
theorem stringToNumber_ne_nan_iff (l : List Char) :
    stringToNumber l ≠ JSNumber.nan ↔ IsStringNumericLiteral l := by
  constructor
  · intro h
    obtain ⟨w1, w2, hl, h1, h2⟩ := trimChars_decomp l
    refine ⟨w1, trimChars l, w2, hl, h1, h2, ?_⟩
    unfold stringToNumber at h
    split at h
    · next ht => exact Or.inl ht
    · next c t ht =>
      right
      rw [ht]
      split at h
      · next n hn =>
        exact Or.inr ((parseNonDecimalIntegerLiteral_isSome_iff _).1 (by rw [hn]; rfl))
      · exact Or.inl ((parseStrDecimalLiteral_ne_nan_iff _).1 h)
  · rintro ⟨w1, lit, w2, rfl, h1, h2, hlit⟩
    have hvis : ∀ c ∈ lit, isWhiteSpaceChar c = false := by
      rcases hlit with rfl | hlit
      · simp
      · exact fun c hc => not_whiteSpace_of_visible (visible_strNumericLiteral hlit c hc)
    unfold stringToNumber
    rw [trimChars_sandwich h1 h2 hvis]
    cases lit with
    | nil => simp [JSNumber.zero]
    | cons c t =>
      have hnum : IsStrNumericLiteral (c :: t) := by
        rcases hlit with h | h
        · exact absurd h (by simp)
        · exact h
      simp only
      split
      · simp
      · next hn =>
        rcases hnum with hd | hnd
        · exact (parseStrDecimalLiteral_ne_nan_iff _).2 hd
        · have := (parseNonDecimalIntegerLiteral_isSome_iff _).2 hnd
          rw [hn] at this
          simp at this

/-! ## The advance control in the document tree -/

mutual
theorem ancestors_locate (anc : List (Element × Bool)) (last : Bool) :
    ∀ (e : Element), ∀ l ∈ locate anc last e, ∀ a ∈ l.ancestors,
      a ∈ anc ∨ ∃ l1 ∈ locate anc last e, l1.elem = a.1
  | Element.mk n attrs d t cs => by
    intro l hl a ha
    rw [locate, List.mem_cons] at hl
    rcases hl with rfl | hl
    · exact Or.inl ha
    · rcases ancestors_locateChildren _ cs l hl a ha with h | ⟨l1, h1, h2⟩
      · rw [List.mem_cons] at h
        rcases h with rfl | h
        · exact Or.inr ⟨_, by rw [locate]; exact List.mem_cons_self _ _, rfl⟩
        · exact Or.inl h
      · exact Or.inr ⟨l1, by rw [locate]; exact List.mem_cons_of_mem _ h1, h2⟩
theorem ancestors_locateChildren (anc : List (Element × Bool)) :
    ∀ (cs : List Element), ∀ l ∈ locateChildren anc cs, ∀ a ∈ l.ancestors,
      a ∈ anc ∨ ∃ l1 ∈ locateChildren anc cs, l1.elem = a.1
  | [] => by
    intro l hl
    simp [locateChildren] at hl
  | c :: cs => by
    intro l hl a ha
    rw [locateChildren, List.mem_append] at hl
    rcases hl with hl | hl
    · rcases ancestors_locate anc _ c l hl a ha with h | ⟨l1, h1, h2⟩
      · exact Or.inl h
      · exact Or.inr ⟨l1, by rw [locateChildren]; exact List.mem_append_left _ h1, h2⟩
    · rcases ancestors_locateChildren anc cs l hl a ha with h | ⟨l1, h1, h2⟩
      · exact Or.inl h
      · exact Or.inr ⟨l1, by rw [locateChildren]; exact List.mem_append_right _ h1, h2⟩
end

theorem ancestorsHold_singleton (c : Compound) (as : List (Element × Bool)) :
    ancestorsHold [c] as = as.any fun a => c.holds a.1 a.2 := by
  induction as with
  | nil => rfl
  | cons a as ih => simp [ancestorsHold, ih]

theorem selNextButton_selects (l : Located) :
    selNextButton.selects l = isTrailingButton l := by
  simp only [Selector.selects, selNextButton, List.reverse_cons, List.reverse_nil, List.nil_append,
    List.cons_append, ancestorsHold_singleton, isTrailingButton]
  simp [Compound.holds, isPaginationRegion]

/-! ## The extraction and the loop: auxiliary facts -/

theorem item_eq_ok {cells : List Located} {i : Nat} (h : i < cells.length) :
    item cells i = Except.ok cells[i] := by
  simp [item, List.getElem?_eq_getElem h]

theorem trimmedTextOrEmpty_eq (x : Option Located) :
    trimmedTextOrEmpty x =
      match x with
      | some span => jsTrim span.elem.innerText
      | none => "" := by
  cases x with
  | none => rfl
  | some span =>
    simp only [trimmedTextOrEmpty, Option.map_some']
    split <;> simp_all

theorem scrapeRow_eq (pageData : List CourseRecord) (row : Located) :
    scrapeRow pageData row =
      Except.ok (if hasSixCells row then pageData ++ [recordOfRow row] else pageData) := by
  unfold scrapeRow
  by_cases h : 6 ≤ (row.querySelectorAll selCells).length
  · have h6 : hasSixCells row = true := by simp [hasSixCells, rowCells, h]
    simp only [ge_iff_le, h, if_true, h6]
    rw [item_eq_ok (by omega : 0 < _), item_eq_ok (by omega : 1 < _),
      item_eq_ok (by omega : 2 < _), item_eq_ok (by omega : 3 < _),
      item_eq_ok (by omega : 4 < _), item_eq_ok (by omega : 5 < _)]
    simp only [bind, Except.bind, pure, Except.pure, recordOfRow, rowCells, cellText, courseNameOf,
      List.getElem?_eq_getElem (by omega : 0 < (row.querySelectorAll selCells).length),
      List.getElem?_eq_getElem (by omega : 1 < (row.querySelectorAll selCells).length),
      List.getElem?_eq_getElem (by omega : 2 < (row.querySelectorAll selCells).length),
      List.getElem?_eq_getElem (by omega : 3 < (row.querySelectorAll selCells).length),
      List.getElem?_eq_getElem (by omega : 4 < (row.querySelectorAll selCells).length),
      List.getElem?_eq_getElem (by omega : 5 < (row.querySelectorAll selCells).length),
      trimmedTextOrEmpty_eq]
  · have h6 : hasSixCells row = false := by simp [hasSixCells, rowCells, h]
    simp only [ge_iff_le, h, if_false, h6]
    rfl

theorem foldlM_scrapeRow (rows : List Located) (acc : List CourseRecord) :
    rows.foldlM scrapeRow acc =
      Except.ok (acc ++ (rows.filter hasSixCells).map recordOfRow) := by
  induction rows generalizing acc with
  | nil => simp [List.foldlM, pure, Except.pure]
  | cons r rs ih =>
    rw [List.foldlM_cons, scrapeRow_eq]
    simp only [bind, Except.bind]
    rw [ih]
    by_cases h : hasSixCells r = true
    · simp [h, List.filter_cons]
    · simp [h, List.filter_cons]

theorem scrapeTableData_eq (doc : Document) :
    scrapeTableData doc = Except.ok ((qualifyingRows doc).map recordOfRow) := by
  simp [scrapeTableData, foldlM_scrapeRow, qualifyingRows, tableRows]

theorem scrapedRecords_eq (doc : Document) :
    scrapedRecords doc = (qualifyingRows doc).map recordOfRow := by
  simp [scrapedRecords, scrapeTableData_eq]

theorem iteration_of_disabled (pages : Nat → Document) (s : LoopState)
    (hs : s.status = Status.running) (hd : advanceDisabled (pages s.iter) = true) :
    iteration pages s =
      ⟨s.allCourses ++ scrapedRecords (pages s.iter), s.extractions + 1, s.clicks, s.iter,
        Status.exited⟩ := by
  unfold advanceDisabled at hd
  simp [iteration, hs, scrapeTableData_eq, scrapedRecords_eq, hd]

theorem iteration_of_enabled (pages : Nat → Document) (s : LoopState)
    (hs : s.status = Status.running) (hd : advanceDisabled (pages s.iter) = false) :
    iteration pages s =
      ⟨s.allCourses ++ scrapedRecords (pages s.iter), s.extractions + 1, s.clicks + 1,
        s.iter + 1, Status.running⟩ := by
  unfold advanceDisabled at hd
  simp only [iteration, hs, scrapeTableData_eq, scrapedRecords_eq, hd]
  cases hb : getNextButton (pages s.iter) with
  | none => simp [hb, isNextDisabled] at hd
  | some b => simp

theorem iteration_of_not_running (pages : Nat → Document) (s : LoopState)
    (hs : s.status ≠ Status.running) : iteration pages s = s := by
  unfold iteration
  split
  · contradiction
  · rfl

theorem pagesRecords_succ (pages : Nat → Document) (n : Nat) :
    pagesRecords pages (n + 1) = pagesRecords pages n ++ scrapedRecords (pages n) := by
  simp [pagesRecords, List.range_succ]

theorem iterations_of_enabled (pages : Nat → Document) (n : Nat)
    (h : ∀ i, i < n → advanceDisabled (pages i) = false) :
    iterations pages n = ⟨pagesRecords pages n, n, n, n, Status.running⟩ := by
  induction n with
  | zero => rfl
  | succ n ih =>
    have ih' := ih (fun i hi => h i (by omega))
    rw [iterations, ih', iteration_of_enabled _ _ rfl (h n (by omega)), pagesRecords_succ]

theorem iterations_of_first_disabled (pages : Nat → Document) (k : Nat)
    (h : ∀ i, i < k → advanceDisabled (pages i) = false)
    (hk : advanceDisabled (pages k) = true) :
    iterations pages (k + 1) = ⟨pagesRecords pages (k + 1), k + 1, k, k, Status.exited⟩ := by
  rw [iterations, iterations_of_enabled pages k h, iteration_of_disabled _ _ rfl hk,
    pagesRecords_succ]

theorem mainLoop_of_first_disabled (pages : Nat → Document) (k : Nat) :
    ∀ (fuel : Nat) (s : LoopState), s.status = Status.running →
      (∀ i, s.iter ≤ i → i < s.iter + k → advanceDisabled (pages i) = false) →
      advanceDisabled (pages (s.iter + k)) = true → k < fuel →
      mainLoop pages fuel s = some ((iteration pages)^[k + 1] s) := by
  induction k with
  | zero =>
    intro fuel s hs _ hd hf
    obtain ⟨f, rfl⟩ : ∃ f, fuel = f + 1 := ⟨fuel - 1, by omega⟩
    simp only [mainLoop, Function.iterate_succ, Function.iterate_zero, Function.comp, id]
    rw [iteration_of_disabled _ _ hs (by simpa using hd)]
    simp
  | succ k ih =>
    intro fuel s hs he hd hf
    obtain ⟨f, rfl⟩ : ∃ f, fuel = f + 1 := ⟨fuel - 1, by omega⟩
    have h0 := iteration_of_enabled pages s hs (he s.iter (by omega) (by omega))
    rw [Function.iterate_succ, Function.comp]
    simp only [mainLoop]
    rw [h0]
    simp only [if_true]
    rw [ih f _ rfl]
    · intro i hi1 hi2
      exact he i (by simp at hi1; omega) (by simp at hi2 ⊢; omega)
    · simpa [Nat.add_assoc, Nat.add_comm 1 k] using hd
    · omega

theorem iterations_eq_iterate (pages : Nat → Document) (n : Nat) :
    iterations pages n = (iteration pages)^[n] LoopState.init := by
  induction n with
  | zero => rfl
  | succ n ih => rw [iterations, ih, Function.iterate_succ_apply']

theorem script_of_first_disabled (pages : Nat → Document) (k fuel : Nat)
    (h : ∀ i, i < k → advanceDisabled (pages i) = false)
    (hk : advanceDisabled (pages k) = true) (hf : k < fuel) :
    mainLoop pages fuel LoopState.init = some (iterations pages (k + 1)) ∧
      script pages fuel = some (pagesRecords pages (k + 1)) := by
  have hm : mainLoop pages fuel LoopState.init = some (iterations pages (k + 1)) := by
    rw [iterations_eq_iterate]
    apply mainLoop_of_first_disabled pages k fuel LoopState.init rfl
    · intro i _ hi
      exact h i (by simpa [LoopState.init] using hi)
    · simpa [LoopState.init] using hk
    · exact hf
  refine ⟨hm, ?_⟩
  rw [script, hm, iterations_of_first_disabled pages k h hk]
  simp

theorem mainLoop_of_enabled (pages : Nat → Document)
    (h : ∀ i, advanceDisabled (pages i) = false) :
    ∀ (fuel : Nat) (s : LoopState), s.status = Status.running → mainLoop pages fuel s = none := by
  intro fuel
  induction fuel with
  | zero => intro s _; rfl
  | succ f ih =>
    intro s hs
    simp only [mainLoop]
    rw [iteration_of_enabled pages s hs (h _)]
    simp only [if_true]
    exact ih _ rfl

theorem allCourses_iteration (pages : Nat → Document) (s : LoopState) :
    (iteration pages s).allCourses = s.allCourses ∨
      (iteration pages s).allCourses = s.allCourses ++ scrapedRecords (pages s.iter) := by
  by_cases hs : s.status = Status.running
  · cases hd : advanceDisabled (pages s.iter)
    · rw [iteration_of_enabled pages s hs hd]; exact Or.inr rfl
    · rw [iteration_of_disabled pages s hs hd]; exact Or.inr rfl
  · rw [iteration_of_not_running pages s hs]; exact Or.inl rfl

theorem mainLoop_eq_some (pages : Nat → Document) :
    ∀ (fuel : Nat) (s s1 : LoopState), mainLoop pages fuel s = some s1 →
      ∃ k, s1 = (iteration pages)^[k] s := by
  intro fuel
  induction fuel with
  | zero => intro s s1 h; simp [mainLoop] at h
  | succ f ih =>
    intro s s1 h
    simp only [mainLoop] at h
    split at h
    · obtain ⟨k, hk⟩ := ih _ _ h
      exact ⟨k + 1, by rw [hk, Function.iterate_succ_apply]⟩
    · exact ⟨1, by simpa using h.symm⟩

theorem interest_recordOfRow (row : Located) : (recordOfRow row).interest = JSNumber.ofNat 5 := rfl

theorem interest_scrapedRecords (doc : Document) :
    ∀ r ∈ scrapedRecords doc, r.interest = JSNumber.ofNat 5 := by
  intro r hr
  rw [scrapedRecords_eq, List.mem_map] at hr
  obtain ⟨row, _, rfl⟩ := hr
  rfl

theorem length_pagesRecords (pages : Nat → Document) (n : Nat) :
    (pagesRecords pages n).length =
      ((List.range n).map fun i => (qualifyingRows (pages i)).length).sum := by
  induction n with
  | zero => rfl
  | succ n ih =>
    rw [pagesRecords_succ, List.length_append, ih, List.sum_range_succ, scrapedRecords_eq,
      List.length_map]

theorem isStringNumericLiteral_of_trimChars (l : List Char)
    (h : IsStringNumericLiteral (trimChars l)) : IsStringNumericLiteral l := by
  obtain ⟨w1, lit, w2, ht, h1, h2, hlit⟩ := h
  obtain ⟨u1, u2, hl, hu1, hu2⟩ := trimChars_decomp l
  refine ⟨u1 ++ w1, lit, w2 ++ u2, ?_, ?_, ?_, hlit⟩
  · rw [ht] at hl
    rw [hl]
    simp only [List.append_assoc]
  · intro c hc
    rcases List.mem_append.1 hc with hc | hc
    · exact hu1 c hc
    · exact h1 c hc
  · intro c hc
    rcases List.mem_append.1 hc with hc | hc
    · exact h2 c hc
    · exact hu2 c hc

theorem Number_jsTrim_of_not_numeric (s : String) (h : ¬ IsNumericText s) :
    Number (jsTrim s) = JSNumber.nan := by
  by_contra hne
  apply h
  exact isStringNumericLiteral_of_trimChars _ ((stringToNumber_ne_nan_iff _).1 hne)

theorem trimChars_of_whiteSpace (l : List Char) (h : IsStrWhiteSpace l) : trimChars l = [] := by
  have := @trimChars_sandwich l [] [] h (by intro c hc; simp at hc) (by simp)
  simpa using this

theorem Number_jsTrim_of_blank (s : String) (h : IsStrWhiteSpace s.data) :
    Number (jsTrim s) = JSNumber.zero := by
  have h1 : trimChars s.data = [] := trimChars_of_whiteSpace _ h
  have h2 : trimChars ([] : List Char) = [] := rfl
  simp [Number, jsTrim, stringToNumber, h1, h2]

theorem stringToNumber_of_decimalDigits (ds : List Char) (h : IsDecimalDigits ds) :
    stringToNumber ds = JSNumber.finite false (digitsValue 10 digitValue ds) 0 := by
  have hvis : ∀ c ∈ ds, isWhiteSpaceChar c = false :=
    fun c hc => not_whiteSpace_of_visible (visible_of_decimalDigit (h.2 c hc))
  have ht : trimChars ds = ds := by
    have := @trimChars_sandwich [] ds [] (by intro c hc; simp at hc) (by intro c hc; simp at hc)
      hvis
    simpa using this
  obtain ⟨hne, hall⟩ := h
  have htw := takeWhile_digits_append ds [] hall (by simp)
  simp only [List.append_nil] at htw
  unfold stringToNumber
  rw [ht]
  cases ds with
  | nil => exact absurd rfl hne
  | cons c t =>
    have hc : isDecimalDigit c = true := hall c (List.mem_cons_self _ _)
    have hnd : parseNonDecimalIntegerLiteral (c :: t) = none := by
      cases t with
      | nil => rfl
      | cons p t2 =>
        have hp : isDecimalDigit p = true := hall p (by simp)
        have e1 : ¬ (p = 'b' ∨ p = 'B') := by
          rintro (rfl | rfl) <;> exact absurd hp (by decide)
        have e2 : ¬ (p = 'o' ∨ p = 'O') := by
          rintro (rfl | rfl) <;> exact absurd hp (by decide)
        have e3 : ¬ (p = 'x' ∨ p = 'X') := by
          rintro (rfl | rfl) <;> exact absurd hp (by decide)
        simp [parseNonDecimalIntegerLiteral, e1, e2, e3]
    have h1 : c ≠ '+' := by rintro rfl; exact absurd hc (by decide)
    have h2 : c ≠ '-' := by rintro rfl; exact absurd hc (by decide)
    have h3 : c :: t ≠ "Infinity".data := by
      intro h
      have : c = 'I' := by simpa using congrArg List.head? h
      subst this
      exact absurd hc (by decide)
    simp only [hnd, parseStrDecimalLiteral, h1, h2, if_false, parseUnsignedDecimalLiteral, h3,
      parseUnsignedDecimal, htw.1, htw.2]
    simp

theorem mem_scrapedRecords (doc : Document) (row : Located) (hrow : row ∈ tableRows doc)
    (hcells : 6 ≤ (rowCells row).length) : recordOfRow row ∈ scrapedRecords doc := by
  rw [scrapedRecords_eq]
  apply List.mem_map_of_mem
  unfold qualifyingRows
  rw [List.mem_filter]
  exact ⟨hrow, by simp [hasSixCells, hcells]⟩

theorem scrapeRow_of_sixCells (row : Located) (hcells : 6 ≤ (rowCells row).length)
    (acc : List CourseRecord) : scrapeRow acc row = Except.ok (acc ++ [recordOfRow row]) := by
  rw [scrapeRow_eq]
  simp [hasSixCells, hcells]

theorem getNextButton_eq (doc : Document) :
    getNextButton doc = (doc.elements.filter isTrailingButton).head? := by
  unfold getNextButton Document.querySelector Document.querySelectorAll Document.elements
  congr 1
  apply List.filter_congr
  intro l _
  exact selNextButton_selects l

theorem getNextButton_of_no_region (doc : Document)
    (h : ∀ l ∈ doc.elements, isPaginationRegion l.elem = false) : getNextButton doc = none := by
  rw [getNextButton_eq]
  have : doc.elements.filter isTrailingButton = [] := by
    rw [List.filter_eq_nil_iff]
    intro l hl htb
    simp only [isTrailingButton, Bool.and_eq_true, List.any_eq_true] at htb
    obtain ⟨_, a, ha, hreg⟩ := htb
    rcases ancestors_locate [] true doc l hl a ha with h0 | ⟨l1, h1, h2⟩
    · simp at h0
    · have := h l1 h1
      rw [h2, hreg] at this
      exact absurd this (by simp)
  rw [this]
  rfl

theorem getNextButton_of_no_trailing (doc : Document)
    (h : ∀ l ∈ doc.elements, isTrailingButton l = false) : getNextButton doc = none := by
  rw [getNextButton_eq]
  have : doc.elements.filter isTrailingButton = [] := by
    rw [List.filter_eq_nil_iff]
    intro l hl htb
    rw [h l hl] at htb
    exact absurd htb (by simp)
  rw [this]
  rfl

theorem recordOfRow_fields (row : Located) :
    (recordOfRow row).courseName = courseNameOf (rowCells row) ∧
    (recordOfRow row).rating = Number (jsTrim (cellText (rowCells row) 2)) ∧
    (recordOfRow row).difficulty = Number (jsTrim (cellText (rowCells row) 3)) ∧
    (recordOfRow row).workload = Number (jsTrim (cellText (rowCells row) 4)) ∧
    (recordOfRow row).numReviews = Number (jsTrim (cellText (rowCells row) 5)) := by
  simp only [recordOfRow, and_self]
theorem not_numeric_of_nan (s : String) (h : Number s = JSNumber.nan) : ¬ IsNumericText s :=
  fun hn => (stringToNumber_ne_nan_iff s.data).2 hn h

theorem pageTwoRow_mem : pageTwoRow ∈ tableRows pageTwo :=
  List.getElem?_mem (rfl : (tableRows pageTwo)[0]? = some pageTwoRow)

theorem pageOneRow_mem : pageOneRow ∈ tableRows pageOne :=
  List.getElem?_mem (rfl : (tableRows pageOne)[0]? = some pageOneRow)

theorem pageThreeRow_mem : pageThreeRow ∈ tableRows pageThree :=
  List.getElem?_mem (rfl : (tableRows pageThree)[0]? = some pageThreeRow)

/-! ## The claims -/

/-- C1: when the advance control is enabled on pages `0 .. P-2` and missing or
disabled on page `P-1`, the loop is still running after fewer than `P`
iterations and has exited after exactly `P`, with `P` extractions and `P-1`
clicks; the script returns (given at least `P` iterations of fuel) the
concatenation of the lists `scrapeTableData` returns for pages `0 .. P-1` in
page order, whose length is the sum of the per-page numbers of qualifying rows
and which ends with the records of the last page. -/
theorem multi_page_output (pages : Nat → Document) (P : Nat) (hP : 1 ≤ P)
    (henabled : ∀ i, i < P - 1 → advanceDisabled (pages i) = false)
    (hlast : advanceDisabled (pages (P - 1)) = true) :
    (∀ n, n < P → (iterations pages n).status = Status.running) ∧
      iterations pages P =
        ⟨((List.range P).map fun i => scrapedRecords (pages i)).flatten, P, P - 1, P - 1,
          Status.exited⟩ ∧
      (∀ fuel, P ≤ fuel →
        script pages fuel = some ((List.range P).map fun i => scrapedRecords (pages i)).flatten) ∧
      (∀ i, i < P → scrapeTableData (pages i) = Except.ok (scrapedRecords (pages i))) ∧
      (((List.range P).map fun i => scrapedRecords (pages i)).flatten).length =
        ((List.range P).map fun i => (qualifyingRows (pages i)).length).sum ∧
      scrapedRecords (pages (P - 1)) <:+
        ((List.range P).map fun i => scrapedRecords (pages i)).flatten := by
  obtain ⟨k, rfl⟩ : ∃ k, P = k + 1 := ⟨P - 1, by omega⟩
  simp only [Nat.add_sub_cancel] at henabled hlast ⊢
  refine ⟨?_, ?_, ?_, ?_, ?_, ?_⟩
  · intro n hn
    rw [iterations_of_enabled pages n (fun i hi => henabled i (by omega))]
  · exact iterations_of_first_disabled pages k henabled hlast
  · intro fuel hf
    exact (script_of_first_disabled pages k fuel henabled hlast (by omega)).2
  · intro i _
    rw [scrapeTableData_eq, scrapedRecords_eq]
  · exact length_pagesRecords pages (k + 1)
  · have := pagesRecords_succ pages k
    unfold pagesRecords at this
    rw [this]
    exact List.suffix_append _ _

/-- C1 on the two-page sequence `pageOne`, `pageTwo`: two extractions, one
click, and the records of both pages in page order. -/
theorem multi_page_output_witness :
    advanceDisabled (examplePages 0) = false ∧ advanceDisabled (examplePages 1) = true ∧
    iterations examplePages 2 =
      ⟨[⟨"Algorithms", "CS 161", JSNumber.finite false 45 (-1), JSNumber.finite false 32 (-1),
          JSNumber.ofNat 10, JSNumber.ofNat 120, JSNumber.ofNat 5⟩,
        ⟨"", "CS 145", JSNumber.nan, JSNumber.zero, JSNumber.zero, JSNumber.nan,
          JSNumber.ofNat 5⟩], 2, 1, 1, Status.exited⟩ ∧
    script examplePages 2 =
      some [⟨"Algorithms", "CS 161", JSNumber.finite false 45 (-1),
          JSNumber.finite false 32 (-1), JSNumber.ofNat 10, JSNumber.ofNat 120,
          JSNumber.ofNat 5⟩,
        ⟨"", "CS 145", JSNumber.nan, JSNumber.zero, JSNumber.zero, JSNumber.nan,
          JSNumber.ofNat 5⟩] := by
  have h0 : advanceDisabled (examplePages 0) = false := by decide
  have h1 : advanceDisabled (examplePages 1) = true := by decide
  have henabled : ∀ i, i < 2 - 1 → advanceDisabled (examplePages i) = false := by
    intro i hi
    have : i = 0 := by omega
    subst this
    exact h0
  obtain ⟨_, hiter, hscript, _⟩ := multi_page_output examplePages 2 (by decide) henabled h1
  have hrec : ((List.range 2).map fun i => scrapedRecords (examplePages i)).flatten =
      [⟨"Algorithms", "CS 161", JSNumber.finite false 45 (-1), JSNumber.finite false 32 (-1),
          JSNumber.ofNat 10, JSNumber.ofNat 120, JSNumber.ofNat 5⟩,
        ⟨"", "CS 145", JSNumber.nan, JSNumber.zero, JSNumber.zero, JSNumber.nan,
          JSNumber.ofNat 5⟩] := by decide
  rw [hrec] at hiter hscript
  exact ⟨h0, h1, hiter, hscript 2 (le_refl 2)⟩

/-- C2: for a page whose advance control is absent or marked disabled, the
loop makes one extraction and no click and exits; the output is the list of
records built from the rows with at least 6 cells, in document order: it has
exactly `N` records, `N` the number of such rows, and its `i`-th record is
the one built from the `i`-th such row. -/
theorem single_page_output (pages : Nat → Document)
    (hcontrol : getNextButton (pages 0) = none ∨
      ∃ btn, getNextButton (pages 0) = some btn ∧
        (btn.elem.hasAttribute "disabled" = true ∨ btn.elem.disabled = true)) :
    iterations pages 1 =
        ⟨(qualifyingRows (pages 0)).map recordOfRow, 1, 0, 0, Status.exited⟩ ∧
      (∀ fuel, 1 ≤ fuel → script pages fuel = some ((qualifyingRows (pages 0)).map recordOfRow)) ∧
      ((qualifyingRows (pages 0)).map recordOfRow).length =
        (tableRows (pages 0)).countP (fun row => decide (6 ≤ (rowCells row).length)) ∧
      ∀ (i : Nat) (row : Located), (qualifyingRows (pages 0))[i]? = some row →
        ((qualifyingRows (pages 0)).map recordOfRow)[i]? = some (recordOfRow row) := by
  have hd : advanceDisabled (pages 0) = true := by
    unfold advanceDisabled
    rcases hcontrol with h | ⟨btn, h, h1 | h2⟩
    · rw [h]; rfl
    · rw [h]; simp [isNextDisabled, h1]
    · rw [h]; simp [isNextDisabled, h2]
  have h0 : ∀ i, i < 0 → advanceDisabled (pages i) = false := fun i hi => absurd hi (by omega)
  have hrec : pagesRecords pages 1 = (qualifyingRows (pages 0)).map recordOfRow := by
    rw [pagesRecords_succ]
    simp [pagesRecords, scrapedRecords_eq]
  refine ⟨?_, ?_, ?_, ?_⟩
  · rw [iterations_of_first_disabled pages 0 h0 hd, hrec]
  · intro fuel hf
    rw [(script_of_first_disabled pages 0 fuel h0 hd (by omega)).2, hrec]
  · rw [List.length_map, List.countP_eq_length_filter]; rfl
  · intro i row hrow
    rw [List.getElem?_map, hrow]; rfl

/-- C2 on `pageThree` (no advance control) and on `pageTwo` (control marked
disabled): one extraction, no click, one record for the one qualifying row. -/
theorem single_page_output_witness :
    getNextButton pageThree = none ∧
    iterations (fun _ => pageThree) 1 =
      ⟨[⟨"Compilers", "CS 143", JSNumber.ofNat 4, JSNumber.ofNat 4, JSNumber.ofNat 15,
          JSNumber.finite false 75 (-1), JSNumber.ofNat 5⟩], 1, 0, 0, Status.exited⟩ ∧
    script (fun _ => pageTwo) 1 =
      some [⟨"", "CS 145", JSNumber.nan, JSNumber.zero, JSNumber.zero, JSNumber.nan,
        JSNumber.ofNat 5⟩] := by
  have h3 : getNextButton pageThree = none := rfl
  have h2 : ∃ btn, getNextButton pageTwo = some btn ∧
      (btn.elem.hasAttribute "disabled" = true ∨ btn.elem.disabled = true) := by
    cases hb : getNextButton pageTwo with
    | none => exact absurd (congrArg Option.isSome hb) (by decide)
    | some btn =>
      have : (getNextButton pageTwo).all (fun b => b.elem.hasAttribute "disabled") = true := by
        decide
      rw [hb] at this
      exact ⟨btn, rfl, Or.inl (by simpa using this)⟩
  obtain ⟨hiter, _⟩ := single_page_output (fun _ => pageThree) (Or.inl h3)
  obtain ⟨_, hscript, _⟩ := single_page_output (fun _ => pageTwo) (Or.inr h2)
  refine ⟨h3, hiter.trans (by decide), (hscript 1 (le_refl 1)).trans (by decide)⟩

/-- C3: `scrapeTableData` is a filter-then-map over the table rows with the
predicate "at least 6 cells" and nothing else: for every list of rows the fold
of the row callback returns, without fault, the records of the rows with at
least 6 cells in row order; so does `scrapeTableData` for the rows of a
document, and the number of records is the number of rows with at least 6
cells. -/
theorem scrapeTableData_filter_map (rows : List Located) (doc : Document) :
    rows.foldlM scrapeRow [] =
        Except.ok ((rows.filter fun row => decide (6 ≤ (rowCells row).length)).map recordOfRow) ∧
      scrapeTableData doc =
        Except.ok (((tableRows doc).filter fun row =>
          decide (6 ≤ (rowCells row).length)).map recordOfRow) ∧
      (scrapedRecords doc).length =
        (tableRows doc).countP (fun row => decide (6 ≤ (rowCells row).length)) := by
  refine ⟨?_, ?_, ?_⟩
  · rw [foldlM_scrapeRow]; rfl
  · rw [scrapeTableData_eq]; rfl
  · rw [scrapedRecords_eq, List.length_map, List.countP_eq_length_filter]; rfl

/-- C5: an iteration of the running loop leaves the loop exactly when the
advance control of the page it has just scraped is missing or disabled.  If
the control is present and enabled on every page, the loop is still running
after `n` iterations for every `n`, and no bound on the number of iterations
makes it return.  If page `k` is the first with a missing or disabled control,
the loop is running after `k` iterations and has exited after `k + 1`, on page
`k`. -/
theorem loop_exit_iff_disabled (pages : Nat → Document) :
    (∀ s : LoopState, s.status = Status.running →
      ((iteration pages s).status = Status.exited ↔
        isNextDisabled (getNextButton (pages s.iter)) = true) ∧
      ((iteration pages s).status = Status.running ↔
        isNextDisabled (getNextButton (pages s.iter)) = false)) ∧
    ((∀ i, isNextDisabled (getNextButton (pages i)) = false) →
      ∀ n, (iterations pages n).status = Status.running ∧ (iterations pages n).extractions = n ∧
        mainLoop pages n LoopState.init = none ∧ script pages n = none) ∧
    (∀ k, (∀ i, i < k → isNextDisabled (getNextButton (pages i)) = false) →
      isNextDisabled (getNextButton (pages k)) = true →
      (iterations pages k).status = Status.running ∧
      (iterations pages (k + 1)).status = Status.exited ∧
      (iterations pages (k + 1)).iter = k ∧
      (iterations pages (k + 1)).extractions = k + 1 ∧
      ∀ fuel, k < fuel → mainLoop pages fuel LoopState.init = some (iterations pages (k + 1))) := by
  refine ⟨?_, ?_, ?_⟩
  · intro s hs
    cases hd : advanceDisabled (pages s.iter)
    · have := iteration_of_enabled pages s hs hd
      unfold advanceDisabled at hd
      rw [this, hd]; simp
    · have := iteration_of_disabled pages s hs hd
      unfold advanceDisabled at hd
      rw [this, hd]; simp
  · intro h n
    have hi := iterations_of_enabled pages n (fun i _ => h i)
    have hm := mainLoop_of_enabled pages h n LoopState.init rfl
    refine ⟨by rw [hi], by rw [hi], hm, ?_⟩
    rw [script, hm]
  · intro k h hk
    have h1 := iterations_of_enabled pages k h
    have h2 := iterations_of_first_disabled pages k h hk
    refine ⟨by rw [h1], by rw [h2], by rw [h2], by rw [h2], ?_⟩
    intro fuel hf
    exact (script_of_first_disabled pages k fuel h hk hf).1

/-- C5 on the example sequences: over the unchanging `pageOne` with its enabled
control the loop is still running after 7 iterations and 7 iterations of fuel
return nothing; over `pageOne`, `pageTwo` it exits in the second iteration. -/
theorem loop_exit_iff_disabled_witness :
    ((iterations stuckPages 7).status = Status.running ∧ script stuckPages 7 = none) ∧
    ((iterations examplePages 1).status = Status.running ∧
      (iterations examplePages 2).status = Status.exited ∧
      (iterations examplePages 2).extractions = 2) := by
  have hstuck : ∀ i, isNextDisabled (getNextButton (stuckPages i)) = false := by
    intro i
    have : isNextDisabled (getNextButton pageOne) = false := by decide
    exact this
  have h := (loop_exit_iff_disabled stuckPages).2.1 hstuck 7
  have hk := (loop_exit_iff_disabled examplePages).2.2 1
    (by
      intro i hi
      have : i = 0 := by omega
      subst this
      decide)
    (by decide)
  exact ⟨⟨h.1, h.2.2.2⟩, hk.1, hk.2.1, hk.2.2.2.1⟩

/-- C7: every record `scrapeTableData` returns has `interest` equal to 5, and
so has every record of the accumulator `allCourses` after any number of
iterations over any pages, hence every record of the output. -/
theorem interest_always_five (doc : Document) (pages : Nat → Document) (n : Nat) :
    (∃ pageData, scrapeTableData doc = Except.ok pageData ∧
      ∀ r ∈ pageData, r.interest = JSNumber.ofNat 5) ∧
    (∀ r ∈ (iterations pages n).allCourses, r.interest = JSNumber.ofNat 5) ∧
    (∀ out, script pages n = some out → ∀ r ∈ out, r.interest = JSNumber.ofNat 5) := by
  have hiter : ∀ m, ∀ r ∈ (iterations pages m).allCourses, r.interest = JSNumber.ofNat 5 := by
    intro m
    induction m with
    | zero => intro r hr; simp [iterations, LoopState.init] at hr
    | succ m ih =>
      intro r hr
      rw [iterations] at hr
      rcases allCourses_iteration pages (iterations pages m) with h | h
      · rw [h] at hr; exact ih r hr
      · rw [h, List.mem_append] at hr
        rcases hr with hr | hr
        · exact ih r hr
        · exact interest_scrapedRecords _ r hr
  refine ⟨⟨_, scrapeTableData_eq doc, ?_⟩, hiter n, ?_⟩
  · intro r hr
    rw [List.mem_map] at hr
    obtain ⟨row, _, rfl⟩ := hr
    rfl
  · intro out hout r hr
    unfold script at hout
    cases hm : mainLoop pages n LoopState.init with
    | none => rw [hm] at hout; simp at hout
    | some s1 =>
      rw [hm] at hout
      obtain ⟨k, hk⟩ := mainLoop_eq_some pages n _ _ hm
      rw [← iterations_eq_iterate] at hk
      simp only at hout
      split at hout
      · simp only [Option.some.injEq] at hout
        rw [← hout, hk] at hr
        exact hiter k r hr
      · exact absurd hout (by simp)

/-- C4: for a table row with at least 6 cells, `scrapeTableData` returns
without fault a list that contains the record of that row (the row callback
appends exactly that record), and each of the fields rating, difficulty,
workload, numReviews is not-a-number when the text of its cell (the third to
the sixth) is non-numeric. -/
theorem nonNumeric_cell_gives_nan (doc : Document) (row : Located)
    (hrow : row ∈ tableRows doc) (hcells : 6 ≤ (rowCells row).length) :
    ∃ pageData r, scrapeTableData doc = Except.ok pageData ∧ r ∈ pageData ∧
      (∀ acc, scrapeRow acc row = Except.ok (acc ++ [r])) ∧
      (¬ IsNumericText (cellText (rowCells row) 2) → r.rating = JSNumber.nan) ∧
      (¬ IsNumericText (cellText (rowCells row) 3) → r.difficulty = JSNumber.nan) ∧
      (¬ IsNumericText (cellText (rowCells row) 4) → r.workload = JSNumber.nan) ∧
      (¬ IsNumericText (cellText (rowCells row) 5) → r.numReviews = JSNumber.nan) := by
  refine ⟨scrapedRecords doc, recordOfRow row, ?_, mem_scrapedRecords doc row hrow hcells,
    scrapeRow_of_sixCells row hcells, ?_, ?_, ?_, ?_⟩
  · rw [scrapeTableData_eq, scrapedRecords_eq]
  · rw [(recordOfRow_fields row).2.1]
    exact Number_jsTrim_of_not_numeric _
  · rw [(recordOfRow_fields row).2.2.1]
    exact Number_jsTrim_of_not_numeric _
  · rw [(recordOfRow_fields row).2.2.2.1]
    exact Number_jsTrim_of_not_numeric _
  · rw [(recordOfRow_fields row).2.2.2.2]
    exact Number_jsTrim_of_not_numeric _

/-- C4 on `pageTwo`: its row has seven cells, the rating text "4.1 stars" and
the reviews text "N/A" are non-numeric, and the record has not-a-number in
both fields. -/
theorem nonNumeric_cell_gives_nan_witness :
    cellText (rowCells pageTwoRow) 2 = "4.1 stars" ∧ cellText (rowCells pageTwoRow) 5 = "N/A" ∧
    ¬ IsNumericText "4.1 stars" ∧ ¬ IsNumericText "N/A" ∧
    ∃ pageData r, scrapeTableData pageTwo = Except.ok pageData ∧ r ∈ pageData ∧
      (∀ acc, scrapeRow acc pageTwoRow = Except.ok (acc ++ [r])) ∧
      r.rating = JSNumber.nan ∧ r.numReviews = JSNumber.nan := by
  have h1 : ¬ IsNumericText "4.1 stars" := not_numeric_of_nan _ (by decide)
  have h2 : ¬ IsNumericText "N/A" := not_numeric_of_nan _ (by decide)
  obtain ⟨pageData, r, hp, hr, hs, hrating, _, _, hreviews⟩ :=
    nonNumeric_cell_gives_nan pageTwo pageTwoRow pageTwoRow_mem (by decide)
  exact ⟨rfl, rfl, h1, h2, pageData, r, hp, hr, hs, hrating h1, hreviews h2⟩

/-- C10: for a table row with at least 6 cells, a numeric cell (the third to
the sixth) whose text is empty or consists of white space only gives the
number `+0` in its field of the record, not not-a-number: the trimmed text is
empty and `Number('')` is 0. -/
theorem blank_cell_gives_zero (doc : Document) (row : Located)
    (hrow : row ∈ tableRows doc) (hcells : 6 ≤ (rowCells row).length) :
    ∃ pageData r, scrapeTableData doc = Except.ok pageData ∧ r ∈ pageData ∧
      (∀ acc, scrapeRow acc row = Except.ok (acc ++ [r])) ∧
      (IsStrWhiteSpace (cellText (rowCells row) 2).data →
        r.rating = JSNumber.zero ∧ r.rating ≠ JSNumber.nan) ∧
      (IsStrWhiteSpace (cellText (rowCells row) 3).data →
        r.difficulty = JSNumber.zero ∧ r.difficulty ≠ JSNumber.nan) ∧
      (IsStrWhiteSpace (cellText (rowCells row) 4).data →
        r.workload = JSNumber.zero ∧ r.workload ≠ JSNumber.nan) ∧
      (IsStrWhiteSpace (cellText (rowCells row) 5).data →
        r.numReviews = JSNumber.zero ∧ r.numReviews ≠ JSNumber.nan) ∧
      Number "" = JSNumber.zero := by
  have hz : ∀ s : String, IsStrWhiteSpace s.data →
      Number (jsTrim s) = JSNumber.zero ∧ Number (jsTrim s) ≠ JSNumber.nan := by
    intro s hs
    rw [Number_jsTrim_of_blank s hs]
    exact ⟨rfl, by decide⟩
  refine ⟨scrapedRecords doc, recordOfRow row, ?_, mem_scrapedRecords doc row hrow hcells,
    scrapeRow_of_sixCells row hcells, ?_, ?_, ?_, ?_, by decide⟩
  · rw [scrapeTableData_eq, scrapedRecords_eq]
  · rw [(recordOfRow_fields row).2.1]
    exact hz _
  · rw [(recordOfRow_fields row).2.2.1]
    exact hz _
  · rw [(recordOfRow_fields row).2.2.2.1]
    exact hz _
  · rw [(recordOfRow_fields row).2.2.2.2]
    exact hz _

/-- C10 on `pageTwo`: the difficulty cell is empty, the workload cell holds two
spaces, and both fields of the record are `+0`. -/
theorem blank_cell_gives_zero_witness :
    cellText (rowCells pageTwoRow) 3 = "" ∧ cellText (rowCells pageTwoRow) 4 = "  " ∧
    ∃ pageData r, scrapeTableData pageTwo = Except.ok pageData ∧ r ∈ pageData ∧
      r.difficulty = JSNumber.zero ∧ r.workload = JSNumber.zero := by
  obtain ⟨pageData, r, hp, hr, _, _, hdifficulty, hworkload, _⟩ :=
    blank_cell_gives_zero pageTwo pageTwoRow pageTwoRow_mem (by decide)
  have h3 : cellText (rowCells pageTwoRow) 3 = "" := by decide
  have h4 : cellText (rowCells pageTwoRow) 4 = "  " := by decide
  refine ⟨h3, h4, pageData, r, hp, hr, (hdifficulty ?_).1, (hworkload ?_).1⟩
  · rw [h3]
    intro c hc
    simp at hc
  · rw [h4]
    intro c hc
    simp only [List.mem_cons, List.mem_singleton, List.not_mem_nil, or_false, or_self] at hc
    subst hc
    decide

/-- C9: for a table row with at least 6 cells, the record is produced without
fault whether or not the first cell has a `span.text-base`; its `courseName`
is the trimmed text of the first such element of the first cell when there is
one, and the empty string when there is none or when the trimmed text is
empty. -/
theorem courseName_of_first_cell (doc : Document) (row : Located)
    (hrow : row ∈ tableRows doc) (hcells : 6 ≤ (rowCells row).length) :
    ∃ pageData r cell, scrapeTableData doc = Except.ok pageData ∧ r ∈ pageData ∧
      (∀ acc, scrapeRow acc row = Except.ok (acc ++ [r])) ∧
      (rowCells row)[0]? = some cell ∧
      (∀ span, cell.querySelector selCourseName = some span →
        r.courseName = jsTrim span.elem.innerText) ∧
      (cell.querySelector selCourseName = none → r.courseName = "") ∧
      (∀ span, cell.querySelector selCourseName = some span →
        jsTrim span.elem.innerText = "" → r.courseName = "") := by
  have h0 : (rowCells row)[0]? = some ((rowCells row)[0]) :=
    List.getElem?_eq_getElem (by omega)
  refine ⟨scrapedRecords doc, recordOfRow row, (rowCells row)[0], ?_,
    mem_scrapedRecords doc row hrow hcells, scrapeRow_of_sixCells row hcells, h0, ?_, ?_, ?_⟩
  · rw [scrapeTableData_eq, scrapedRecords_eq]
  · intro span hspan
    rw [(recordOfRow_fields row).1]
    simp [courseNameOf, h0, hspan]
  · intro hnone
    rw [(recordOfRow_fields row).1]
    simp [courseNameOf, h0, hnone]
  · intro span hspan hempty
    rw [(recordOfRow_fields row).1]
    simp [courseNameOf, h0, hspan, hempty]

/-- C9 on `pageOne` and `pageTwo`: the first row of `pageOne` has the name in a
`span.text-base` and gets the trimmed name; the row of `pageTwo` has no such
element and still gives a record, with the empty name. -/
theorem courseName_of_first_cell_witness :
    (∃ pageData r, scrapeTableData pageOne = Except.ok pageData ∧ r ∈ pageData ∧
      r.courseName = "Algorithms") ∧
    (∃ pageData r, scrapeTableData pageTwo = Except.ok pageData ∧ r ∈ pageData ∧
      r.courseName = "") := by
  constructor
  · obtain ⟨pageData, r, cell, hp, hr, _, hcell, hsome, _, _⟩ :=
      courseName_of_first_cell pageOne pageOneRow pageOneRow_mem (by decide)
    have hc : (rowCells pageOneRow)[0]? = some ((rowCells pageOneRow).headD pageOneRow) := rfl
    rw [hc] at hcell
    cases hcell
    cases hq : ((rowCells pageOneRow).headD pageOneRow).querySelector selCourseName with
    | none => exact absurd (congrArg Option.isSome hq) (by decide)
    | some span =>
      refine ⟨pageData, r, hp, hr, ?_⟩
      rw [hsome span hq]
      have : (((rowCells pageOneRow).headD pageOneRow).querySelector selCourseName).map
          (fun s => jsTrim s.elem.innerText) = some "Algorithms" := by decide
      rw [hq] at this
      simpa using this
  · obtain ⟨pageData, r, cell, hp, hr, _, hcell, _, hnone, _⟩ :=
      courseName_of_first_cell pageTwo pageTwoRow pageTwoRow_mem (by decide)
    have hc : (rowCells pageTwoRow)[0]? = some ((rowCells pageTwoRow).headD pageTwoRow) := rfl
    rw [hc] at hcell
    cases hcell
    refine ⟨pageData, r, hp, hr, hnone ?_⟩
    have : (((rowCells pageTwoRow).headD pageTwoRow).querySelector selCourseName).isSome
        = false := by decide
    simpa using this

/-- C6: `isNextDisabled` is true for an absent control, for a control with a
`disabled` attribute and for a control whose `disabled` property is set, and
false for a present control with neither.  `getNextButton` returns the first
trailing button of a pagination region, so a page without a pagination region
and a page where no button of the region is a last child have no advance
control and are treated as disabled. -/
theorem isNextDisabled_cases (btn : Located) (doc : Document) :
    isNextDisabled none = true ∧
    (btn.elem.hasAttribute "disabled" = true → isNextDisabled (some btn) = true) ∧
    (btn.elem.disabled = true → isNextDisabled (some btn) = true) ∧
    (btn.elem.hasAttribute "disabled" = false → btn.elem.disabled = false →
      isNextDisabled (some btn) = false) ∧
    getNextButton doc = (doc.elements.filter isTrailingButton).head? ∧
    ((∀ l ∈ doc.elements, isPaginationRegion l.elem = false) →
      getNextButton doc = none ∧ isNextDisabled (getNextButton doc) = true) ∧
    ((∀ l ∈ doc.elements, isTrailingButton l = false) →
      getNextButton doc = none ∧ isNextDisabled (getNextButton doc) = true) := by
  refine ⟨rfl, ?_, ?_, ?_, getNextButton_eq doc, ?_, ?_⟩
  · intro h
    simp [isNextDisabled, h]
  · intro h
    simp [isNextDisabled, h]
  · intro h1 h2
    simp [isNextDisabled, h1, h2]
  · intro h
    have hn := getNextButton_of_no_region doc h
    exact ⟨hn, by rw [hn]; rfl⟩
  · intro h
    have hn := getNextButton_of_no_trailing doc h
    exact ⟨hn, by rw [hn]; rfl⟩

/-- C6 on the example pages: `pageThree` has no pagination region and is
treated as disabled; the trailing button of `pageTwo` carries the `disabled`
attribute; the one of `pageOne` is enabled. -/
theorem isNextDisabled_cases_witness :
    (∀ l ∈ pageThree.elements, isPaginationRegion l.elem = false) ∧
    isNextDisabled (getNextButton pageThree) = true ∧
    isNextDisabled (getNextButton pageTwo) = true ∧
    isNextDisabled (getNextButton pageOne) = false := by
  have h3 : ∀ l ∈ pageThree.elements, isPaginationRegion l.elem = false := by decide
  exact ⟨h3, ((isNextDisabled_cases pageThreeRow pageThree).2.2.2.2.2.1 h3).2, by decide,
    by decide⟩

/-- C8, as the code has it: for a table row with at least 6 cells, the
`numReviews` of the record is `Number` applied to the trimmed text of the
sixth cell, a number like rating, difficulty and workload.  It is the integer
the text denotes when the trimmed text is a run of 1 to 15 decimal digits, and
it is not-a-number, hence no integer, when the text is non-numeric. -/
theorem numReviews_is_coerced_text (doc : Document) (row : Located)
    (hrow : row ∈ tableRows doc) (hcells : 6 ≤ (rowCells row).length) :
    ∃ pageData r, scrapeTableData doc = Except.ok pageData ∧ r ∈ pageData ∧
      (∀ acc, scrapeRow acc row = Except.ok (acc ++ [r])) ∧
      r.numReviews = Number (jsTrim (cellText (rowCells row) 5)) ∧
      (IsDecimalDigits (jsTrim (cellText (rowCells row) 5)).data →
        (jsTrim (cellText (rowCells row) 5)).data.length ≤ 15 →
        r.numReviews = JSNumber.finite false
          (digitsValue 10 digitValue (jsTrim (cellText (rowCells row) 5)).data) 0 ∧
        r.numReviews.isInteger = true) ∧
      (¬ IsNumericText (cellText (rowCells row) 5) →
        r.numReviews = JSNumber.nan ∧ r.numReviews.isInteger = false) := by
  refine ⟨scrapedRecords doc, recordOfRow row, ?_, mem_scrapedRecords doc row hrow hcells,
    scrapeRow_of_sixCells row hcells, (recordOfRow_fields row).2.2.2.2, ?_, ?_⟩
  · rw [scrapeTableData_eq, scrapedRecords_eq]
  · intro hd _
    rw [(recordOfRow_fields row).2.2.2.2]
    have := stringToNumber_of_decimalDigits _ hd
    unfold Number
    rw [this]
    exact ⟨rfl, rfl⟩
  · intro hn
    rw [(recordOfRow_fields row).2.2.2.2, Number_jsTrim_of_not_numeric _ hn]
    exact ⟨rfl, rfl⟩

/-- C8 as amended, on `pageOne` and `pageTwo`: the reviews text "120" gives the
integer 120, the non-numeric text "N/A" gives not-a-number. -/
theorem numReviews_is_coerced_text_witness :
    (∃ pageData r, scrapeTableData pageOne = Except.ok pageData ∧ r ∈ pageData ∧
      r.numReviews = JSNumber.finite false 120 0 ∧ r.numReviews.isInteger = true) ∧
    (∃ pageData r, scrapeTableData pageTwo = Except.ok pageData ∧ r ∈ pageData ∧
      r.numReviews = JSNumber.nan ∧ r.numReviews.isInteger = false) := by
  constructor
  · obtain ⟨pageData, r, hp, hr, _, _, hdigits, _⟩ :=
      numReviews_is_coerced_text pageOne pageOneRow pageOneRow_mem (by decide)
    have ht : (jsTrim (cellText (rowCells pageOneRow) 5)).data = ['1', '2', '0'] := by decide
    rw [ht] at hdigits
    have h := hdigits ((isDecimalDigits_iff _).1 (by decide)) (by decide)
    exact ⟨pageData, r, hp, hr, h.1.trans (by decide), h.2⟩
  · obtain ⟨pageData, r, hp, hr, _, _, _, hnan⟩ :=
      numReviews_is_coerced_text pageTwo pageTwoRow pageTwoRow_mem (by decide)
    have ht : cellText (rowCells pageTwoRow) 5 = "N/A" := by decide
    rw [ht] at hnan
    have h := hnan (not_numeric_of_nan _ (by decide))
    exact ⟨pageData, r, hp, hr, h.1, h.2⟩

/-- C8 fails as stated: on `pageTwo` the sixth cell of the row reads "N/A" and
the record has `numReviews` not-a-number; on `pageThree` it reads "7.5" and the
record has `numReviews` 7.5; neither is an integer. -/
theorem numReviews_not_integer_counterexample :
    (rowCells pageTwoRow).length = 7 ∧ cellText (rowCells pageTwoRow) 5 = "N/A" ∧
    scrapeTableData pageTwo = Except.ok
      [⟨"", "CS 145", JSNumber.nan, JSNumber.zero, JSNumber.zero, JSNumber.nan,
        JSNumber.ofNat 5⟩] ∧
    JSNumber.nan.isInteger = false ∧
    (rowCells pageThreeRow).length = 6 ∧ cellText (rowCells pageThreeRow) 5 = "7.5" ∧
    scrapeTableData pageThree = Except.ok
      [⟨"Compilers", "CS 143", JSNumber.ofNat 4, JSNumber.ofNat 4, JSNumber.ofNat 15,
        JSNumber.finite false 75 (-1), JSNumber.ofNat 5⟩] ∧
    (JSNumber.finite false 75 (-1)).isInteger = false :=
  ⟨by decide, by decide, rfl, rfl, by decide, by decide, rfl, rfl⟩

end CoursePlanner
